import Mathlib

/-!
# Verification of the battleship recommender core

A shallow embedding, in Lean 4, of the job-source ingestion, deduplication and
relevance-ranking core of the `battleship` recommender service
(`services/recommender/src/recommender/main.py` and `libs/common/src/common/utils.py`),
together with proofs and refutations of the specification's claims about it.

Modelling conventions:

* Python strings are modelled as `List Char` (`Str`); the embedding works over
  ASCII/Unicode code points exactly as Python's `str` operations do, except that
  `str.lower` is modelled by `Char.toLower` (ASCII case folding), which agrees
  with Python on all ASCII text.
* Timestamps (ISO-8601 strings with microsecond precision in the source) are
  modelled as rational numbers of seconds (`Time := ℚ`); `parse_iso_datetime`
  on a stored timestamp therefore always succeeds, exactly as it does on the
  timestamps the service itself writes.
* Python's unbounded integers are `ℕ`/`ℤ`; IEEE-754 `float` arithmetic in the
  scoring engine is modelled by exact rational arithmetic (`ℚ`).  The
  `round(x, 4)` applied to the score components when formatting the response is
  a float-display artefact and is not modelled; the final score is carried
  exactly.
* SQLite tables are modelled as lists of row structures; `ON CONFLICT ... DO
  UPDATE` upserts update the matching row in place.
* The SHA-1 digest used for dedup keys and derived posting identities is
  modelled as an explicit function parameter `digest : Str → Str`: every
  theorem about keys or identities holds for an arbitrary digest function, so
  in particular for SHA-1.
* Fallible code (a Python function that can raise) returns `Except Str _`.
-/

/-- Python strings, modelled as lists of characters. -/
abbrev Str := List Char

/-- Timestamps, as rational seconds since an arbitrary epoch. -/
abbrev Time := ℚ

/-- The whitespace characters recognised by Python's `str.split()` /
`str.strip()` (ASCII range; the service's data is ASCII). -/
def pyIsSpace (c : Char) : Bool :=
  c = ' ' || c = '\t' || c = '\n' || c = '\x0d' || c = '\x0b' || c = '\x0c'

/-- `dropWhile` never lengthens a list (termination measure for run-based
recursions below). -/
theorem length_dropWhile_le (p : Char → Bool) (l : Str) :
    (l.dropWhile p).length ≤ l.length := by
  induction l with
  | nil => simp
  | cons c cs ih =>
    by_cases h : p c
    · rw [List.dropWhile_cons_of_pos h]
      exact Nat.le_succ_of_le ih
    · rw [List.dropWhile_cons_of_neg h]

/-- Maximal runs of characters satisfying `p`, with the separating characters
dropped: the common core of Python's `str.split()` and of run-based
replacement.  `wordsBy p l` returns the (nonempty) maximal `p`-runs of `l`. -/
def wordsBy (p : Char → Bool) : Str → List Str
  | [] => []
  | c :: cs =>
    if p c then (c :: cs.takeWhile p) :: wordsBy p (cs.dropWhile p)
    else wordsBy p cs
termination_by l => l.length
decreasing_by
  · simp only [List.length_cons]
    exact Nat.lt_succ_of_le (length_dropWhile_le _ cs)
  · simp [Nat.lt_succ_self]

/-- Unfolding equation for `wordsBy` on `[]` (the definition uses well-founded
recursion, so its equations are applied by rewriting). -/
theorem wordsBy_nil (p : Char → Bool) : wordsBy p [] = [] := by rw [wordsBy]

/-- Unfolding equation for `wordsBy` on `c :: cs`. -/
theorem wordsBy_cons (p : Char → Bool) (c : Char) (cs : Str) :
    wordsBy p (c :: cs) =
      if p c then (c :: cs.takeWhile p) :: wordsBy p (cs.dropWhile p)
      else wordsBy p cs := by rw [wordsBy]

/-- Python's `text.split()`: split on runs of whitespace. -/
def pySplit (s : Str) : List Str := wordsBy (fun c => !pyIsSpace c) s

/-- Python's `" ".join(words)`. -/
def joinWords : List Str → Str
  | [] => []
  | [w] => w
  | w :: ws => w ++ ' ' :: joinWords ws

/-- `normalize_whitespace(text)`: `" ".join(text.split())` — collapse runs of
whitespace to single spaces and trim. -/
def normalize_whitespace (s : Str) : Str := joinWords (pySplit s)

/-- Lower-casing of a whole string (`str.lower()` on ASCII text). -/
def lowerStr (s : Str) : Str := s.map Char.toLower

/-- Characters kept by the `normalize_text` regex class `[a-z0-9]`. -/
def isKept (c : Char) : Bool := ('a' ≤ c && c ≤ 'z') || ('0' ≤ c && c ≤ '9')

/-- Characters matched by the regex `[^a-z0-9\s]` in `normalize_text`. -/
def isBad (c : Char) : Bool := !(isKept c || pyIsSpace c)

/-- `re.sub(r"[^a-z0-9\s]+", " ", s)`: replace every maximal run of characters
matching `[^a-z0-9\s]` by a single space. -/
def subBadRuns : Str → Str
  | [] => []
  | c :: cs =>
    if isBad c then ' ' :: subBadRuns (cs.dropWhile isBad)
    else c :: subBadRuns cs
termination_by l => l.length
decreasing_by
  · simp only [List.length_cons]
    exact Nat.lt_succ_of_le (length_dropWhile_le _ cs)
  · simp [Nat.lt_succ_self]

/-- Unfolding equation for `subBadRuns` on `[]`. -/
theorem subBadRuns_nil : subBadRuns [] = [] := by rw [subBadRuns]

/-- Unfolding equation for `subBadRuns` on `c :: cs`. -/
theorem subBadRuns_cons (c : Char) (cs : Str) :
    subBadRuns (c :: cs) =
      if isBad c then ' ' :: subBadRuns (cs.dropWhile isBad)
      else c :: subBadRuns cs := by rw [subBadRuns]

/-- `normalize_text(text)`: lower-case, replace runs of non-alphanumerics by a
space, collapse whitespace (per the source: collapse, lower, substitute,
collapse). -/
def normalize_text (s : Str) : Str :=
  normalize_whitespace (subBadRuns (lowerStr (normalize_whitespace s)))

/-- Python's `str.strip()` (whitespace strip, both ends). -/
def pyStrip (s : Str) : Str :=
  ((s.dropWhile pyIsSpace).reverse.dropWhile pyIsSpace).reverse

/-- Python's `str.lstrip()`-like strip of both ends for an arbitrary character
class, as in `token.strip(punctuation)`. -/
def stripChars (p : Char → Bool) (s : Str) : Str :=
  ((s.dropWhile p).reverse.dropWhile p).reverse

/-- The punctuation characters stripped from token boundaries by
`common.utils.tokenize`: `.,!?;:"'()[]` and the two curly braces. -/
def isTokenPunct (c : Char) : Bool :=
  c = '.' || c = ',' || c = '!' || c = '?' || c = ';' || c = ':' ||
  c = '"' || c = '\'' || c = '(' || c = ')' || c = '[' || c = ']' ||
  c = '\x7b' || c = '\x7d'

/-- `common.utils.tokenize(text)`: lower-case, split on whitespace, strip
punctuation from each token's ends, keep tokens whose whitespace-strip is
nonempty (vacuously true for split output), collect into a set. -/
def tokenize (s : Str) : Finset Str :=
  (((pySplit (lowerStr s)).filter (fun t => pyStrip t ≠ [])).map
    (stripChars isTokenPunct)).toFinset

/-! ## URL normalization (`normalize_url` and the `urllib.parse.urlsplit` it calls)

`urlsplit` is embedded following CPython: tab/CR/LF removal, scheme detection,
netloc extraction after a leading `//`, the mismatched-bracket (`Invalid IPv6
URL`) check, then fragment and query splitting.  Two further error paths of the
Python ≥ 3.11 `urlsplit` the program runs on are elided, because they would
require embedding the `ipaddress` parser and Unicode NFKC tables: the
bracketed-host validation (which also raises on matched-bracket hosts that are
not IP addresses) and the NFKC netloc check (which raises on some non-ASCII
netlocs).  Both raise only where this model returns `.ok`, so the model's
errors under-approximate the program's raises.  Accordingly, no theorem below
concludes from a model `.ok` except on bracket-free all-ASCII inputs, where
both elided checks return without raising, and the only failure condition any
theorem asserts is the mismatched-bracket check, which CPython performs before
either elided check. -/

/-- The characters CPython removes from URLs before parsing (tab, CR, LF). -/
def isUnsafeUrlChar (c : Char) : Bool := c = '\t' || c = '\x0d' || c = '\n'

/-- Removal of tab/CR/LF, as in `urlsplit`'s preprocessing. -/
def removeUnsafeUrlChars (s : Str) : Str := s.filter (fun c => !isUnsafeUrlChar c)

/-- ASCII letters (`url[0].isascii() and url[0].isalpha()`). -/
def isAsciiAlpha (c : Char) : Bool := ('a' ≤ c && c ≤ 'z') || ('A' ≤ c && c ≤ 'Z')

/-- CPython's `scheme_chars`: ASCII letters, digits, `+`, `-`, `.`. -/
def isSchemeChar (c : Char) : Bool :=
  isAsciiAlpha c || ('0' ≤ c && c ≤ '9') || c = '+' || c = '-' || c = '.'

/-- Scheme detection in `urlsplit`: if the first `:` is at a positive index,
the first character is an ASCII letter and everything before the `:` is a
scheme character, split the (lower-cased) scheme off. -/
def splitScheme (url : Str) : Str × Str :=
  match url.findIdx? (· = ':') with
  | some i =>
    if 0 < i ∧ (match url.head? with | some c => isAsciiAlpha c | none => false) = true ∧
        (url.take i).all isSchemeChar then
      (lowerStr (url.take i), url.drop (i + 1))
    else ([], url)
  | none => ([], url)

/-- The characters terminating a netloc (`_splitnetloc`'s `'/?#'`). -/
def isNetlocEnd (c : Char) : Bool := c = '/' || c = '?' || c = '#'

/-- `urlsplit`'s result record (scheme, netloc, path, query, fragment). -/
structure SplitResult where
  scheme : Str
  netloc : Str
  path : Str
  query : Str
  fragment : Str
deriving DecidableEq

/-- `urllib.parse.urlsplit(url)` (with `allow_fragments=True`).  Fails — as
CPython does with `ValueError("Invalid IPv6 URL")` — when the netloc contains
`[` without `]` or vice versa.  The bracketed-host and NFKC-netloc error paths
of Python ≥ 3.11 are elided (see the section comment): on inputs reaching
those checks the model returns `.ok` where the program may raise, so theorems
only rely on `.ok` results for bracket-free all-ASCII inputs. -/
def urlsplit (url0 : Str) : Except Str SplitResult :=
  let url1 := removeUnsafeUrlChars url0
  let su := splitScheme url1
  let scheme := su.1
  let url2 := su.2
  let nu : Str × Str :=
    if url2.take 2 = ['/', '/'] then
      ((url2.drop 2).takeWhile (fun c => !isNetlocEnd c),
        (url2.drop 2).dropWhile (fun c => !isNetlocEnd c))
    else ([], url2)
  let netloc := nu.1
  let url3 := nu.2
  if ('[' ∈ netloc ∧ ']' ∉ netloc) ∨ (']' ∈ netloc ∧ '[' ∉ netloc) then
    .error ("Invalid IPv6 URL".toList)
  else
    let fs : Str × Str :=
      match url3.findIdx? (· = '#') with
      | some i => (url3.take i, url3.drop (i + 1))
      | none => (url3, [])
    let qs : Str × Str :=
      match fs.1.findIdx? (· = '?') with
      | some i => (fs.1.take i, fs.1.drop (i + 1))
      | none => (fs.1, [])
    .ok ⟨scheme, netloc, qs.1, qs.2, fs.2⟩

/-- `path.rstrip("/")`. -/
def rstripSlash (s : Str) : Str := (s.reverse.dropWhile (· = '/')).reverse

/-- `normalize_url(url)`: empty result for missing/empty input, otherwise
`urlsplit(url.strip())`, lower-cased host concatenated with the
right-slash-trimmed path.  Propagates `urlsplit`'s `ValueError`. -/
def normalize_url (url : Option Str) : Except Str Str :=
  match url with
  | none => .ok []
  | some u =>
    if u = [] then .ok []
    else
      match urlsplit (pyStrip u) with
      | .error e => .error e
      | .ok parsed => .ok (lowerStr parsed.netloc ++ rstripSlash parsed.path)

/-! ## Dedup key builder (`build_dedup_key`) -/

/-- The `"|"`-joined normalized fields fed to the digest, given the already
normalized apply-URL. -/
def dedupKeyOfNormalized (digest : Str → Str) (nt nc nl nu : Str) : Str :=
  digest (nt ++ '|' :: (nc ++ '|' :: (nl ++ '|' :: nu)))

/-- `build_dedup_key(title, company, location, apply_url)`: digest of the
`|`-joined `normalize_text`/`normalize_url` forms of the four fields.  The
digest (SHA-1, hex) is an arbitrary function parameter. -/
def build_dedup_key (digest : Str → Str) (title : Str)
    (company location apply_url : Option Str) : Except Str Str :=
  match normalize_url apply_url with
  | .error e => .error e
  | .ok normalized_apply_url =>
    .ok (dedupKeyOfNormalized digest (normalize_text title)
      (normalize_text (company.getD [])) (normalize_text (location.getD []))
      normalized_apply_url)

/-! ## Posting repository (`RecommenderRepository.upsert_postings`) -/

/-- Python string truthiness fallback `a or b`. -/
def orElse (s t : Str) : Str := if s = [] then t else s

/-- Python `value or None` for strings: `none` when empty. -/
def noneIfEmpty (s : Str) : Option Str := if s = [] then none else some s

/-- A caller-supplied posting (the `JobPosting` request model).  Optional text
fields default to `None`; `duplicate_hint_count` defaults to 0. -/
structure JobPosting where
  id : Str
  title : Str
  description : Str := []
  company : Option Str := none
  location : Option Str := none
  apply_url : Option Str := none
  source_id : Option Str := none
  external_id : Option Str := none
  updated_at : Option Time := none
  dedup_key : Option Str := none
  duplicate_hint_count : ℕ := 0
deriving DecidableEq

/-- A row of the `job_postings` table. -/
structure PostingRow where
  id : Str
  title : Str
  description : Str
  company : Option Str
  location : Option Str
  apply_url : Option Str
  source_id : Option Str
  external_id : Option Str
  normalized_title : Str
  normalized_company : Str
  normalized_location : Str
  normalized_url : Str
  dedup_key : Str
  duplicate_hint_count : ℕ
  created_at : Time
  updated_at : Time
deriving DecidableEq

/-- `(updated, possible_duplicates)` as returned by `upsert_postings` with
`return_stats=True`. -/
structure UpsertSummary where
  updated : ℕ
  possible_duplicates : ℕ
deriving DecidableEq

/-- `INSERT ... ON CONFLICT(id) DO UPDATE`: update the row with the same id in
place (preserving its `created_at`, which the conflict clause does not set), or
append a fresh row. -/
def upsertRow (table : List PostingRow) (row : PostingRow) : List PostingRow :=
  if table.any (fun r => r.id = row.id) then
    table.map (fun r => if r.id = row.id then { row with created_at := r.created_at } else r)
  else table ++ [row]

/-- One iteration of the `upsert_postings` loop (source lines 661–749): field
normalization, dedup-key resolution, duplicate-hint counting against the
current table, then the upsert itself.  Returns the new table and whether this
posting counted as a possible duplicate.  Fails if `normalize_url` raises on
the posting's apply-URL. -/
def processPosting (digest : Str → Str) (now : Time) (posting : JobPosting)
    (table : List PostingRow) : Except Str (List PostingRow × Bool) :=
  let title := normalize_whitespace posting.title
  let description := orElse (normalize_whitespace posting.description) title
  let company := noneIfEmpty (normalize_whitespace (posting.company.getD []))
  let location := noneIfEmpty (normalize_whitespace (posting.location.getD []))
  let apply_url := noneIfEmpty (pyStrip (posting.apply_url.getD []))
  let source_id := noneIfEmpty (pyStrip (posting.source_id.getD []))
  let external_id := noneIfEmpty (pyStrip (posting.external_id.getD []))
  let normalized_title := normalize_text title
  let normalized_company := normalize_text (company.getD [])
  let normalized_location := normalize_text (location.getD [])
  match normalize_url apply_url with
  | .error e => .error e
  | .ok normalized_url =>
    -- `posting.dedup_key or build_dedup_key(title, company, location, apply_url)`;
    -- `build_dedup_key` recomputes exactly `normalized_title`/`_company`/
    -- `_location`/`normalized_url`, which `normalize_url` just produced.
    let dedup_key :=
      orElse (posting.dedup_key.getD [])
        (dedupKeyOfNormalized digest normalized_title normalized_company
          normalized_location normalized_url)
    let duplicate_hint_count :=
      (table.filter (fun r => r.dedup_key = dedup_key ∧ r.id ≠ posting.id)).length
    let row : PostingRow :=
      { id := posting.id, title := title, description := description,
        company := company, location := location, apply_url := apply_url,
        source_id := source_id, external_id := external_id,
        normalized_title := normalized_title, normalized_company := normalized_company,
        normalized_location := normalized_location, normalized_url := normalized_url,
        dedup_key := dedup_key, duplicate_hint_count := duplicate_hint_count,
        created_at := now, updated_at := now }
    .ok (upsertRow table row, duplicate_hint_count > 0)

/-- The `upsert_postings` loop over the posting list, threading the table and
the possible-duplicate count. -/
def upsertLoop (digest : Str → Str) (now : Time) :
    List JobPosting → List PostingRow → ℕ → Except Str (List PostingRow × ℕ)
  | [], table, dups => .ok (table, dups)
  | p :: ps, table, dups =>
    match processPosting digest now p table with
    | .error e => .error e
    | .ok (table', isDup) =>
      upsertLoop digest now ps table' (if isDup then dups + 1 else dups)

/-- `RecommenderRepository.upsert_postings(postings, return_stats=True)`:
returns the updated table and `UpsertSummary(updated=len(postings),
possible_duplicates=...)`.  A `ValueError` raised mid-loop aborts the batch
with nothing committed (the Python code never reaches its `commit()`). -/
def upsert_postings (digest : Str → Str) (table : List PostingRow)
    (postings : List JobPosting) (now : Time) :
    Except Str (List PostingRow × UpsertSummary) :=
  match upsertLoop digest now postings table 0 with
  | .error e => .error e
  | .ok (table', dups) => .ok (table', ⟨postings.length, dups⟩)

/-! ## Payload mapping (`to_job_postings_from_payload`) -/

/-- One JSON object from a source payload's postings list; absent keys are
`none` (`item.get(..., "")` then yields the empty string).  Non-dict list
entries are modelled as `none` in the surrounding `List (Option RawItem)`. -/
structure RawItem where
  title : Option Str := none
  description : Option Str := none
  company : Option Str := none
  location : Option Str := none
  apply_url : Option Str := none
  external_id : Option Str := none
  id : Option Str := none
deriving DecidableEq

/-- `next((str(v).strip() for v in candidates if v is not None and str(v).strip()), None)`:
first candidate whose strip is nonempty, stripped. -/
def firstStripped : List (Option Str) → Option Str
  | [] => none
  | none :: rest => firstStripped rest
  | some v :: rest => if pyStrip v ≠ [] then some (pyStrip v) else firstStripped rest

/-- Decimal rendering of the 1-based enumeration index. -/
def natToStr (n : ℕ) : Str := (Nat.repr n).toList

/-- The loop of `to_job_postings_from_payload` (source lines 1742–1794) over
`enumerate(raw_postings, start=1)`: skip non-dict items and items whose
normalized title is empty; default an empty description to the title; derive
the posting identity from the external id when present, otherwise from a
truncated digest over the fields, index and scan marker.  `scan_marker` is the
ISO rendering of `scanned_at` with `-:.` removed; the theorems below do not
depend on its value.  Fails when `build_dedup_key` raises on an apply-URL. -/
def toJobPostingsLoop (digest : Str → Str) (source_id : Str) (scanned_at : Time)
    (scan_marker : Str) : List (Option RawItem) → ℕ → Except Str (List JobPosting)
  | [], _ => .ok []
  | none :: rest, index => toJobPostingsLoop digest source_id scanned_at scan_marker rest (index + 1)
  | some item :: rest, index =>
    let title := normalize_whitespace (pyStrip (item.title.getD []))
    let description := orElse (normalize_whitespace (pyStrip (item.description.getD []))) title
    let company := noneIfEmpty (normalize_whitespace (pyStrip (item.company.getD [])))
    let location := noneIfEmpty (normalize_whitespace (pyStrip (item.location.getD [])))
    let apply_url := noneIfEmpty (pyStrip (item.apply_url.getD []))
    if title = [] then toJobPostingsLoop digest source_id scanned_at scan_marker rest (index + 1)
    else
      let external_id := firstStripped [item.external_id, item.id]
      let posting_id :=
        match external_id with
        | some e => source_id ++ ':' :: ':' :: e
        | none =>
          let base := source_id ++ '|' :: (title ++ '|' :: (description ++ '|' ::
            ((company.getD []) ++ '|' :: ((location.getD []) ++ '|' ::
            ((apply_url.getD []) ++ '|' :: (natToStr index ++ '|' :: scan_marker))))))
          source_id ++ ':' :: ':' :: (digest base).take 14
      match build_dedup_key digest title company location apply_url with
      | .error e => .error e
      | .ok dk =>
        match toJobPostingsLoop digest source_id scanned_at scan_marker rest (index + 1) with
        | .error e => .error e
        | .ok tail =>
          .ok ({ id := posting_id, title := title, description := description,
                 company := company, location := location, apply_url := apply_url,
                 source_id := some source_id, external_id := external_id,
                 updated_at := some scanned_at, dedup_key := some dk,
                 duplicate_hint_count := 0 } :: tail)

/-- `to_job_postings_from_payload(source_id, payload, scanned_at=...)`, with
the payload already resolved to its raw postings list (the dict/list duck
typing and the not-a-list rejection happen at the start of the source function
and are not claim-relevant). -/
def to_job_postings_from_payload (digest : Str → Str) (source_id : Str)
    (raw_postings : List (Option RawItem)) (scanned_at : Time) (scan_marker : Str) :
    Except Str (List JobPosting) :=
  toJobPostingsLoop digest source_id scanned_at scan_marker raw_postings 1

/-! ## Source registry and scan state machine -/

/-- Scan outcome status. -/
inductive ScanStatus
  | ok
  | error
  | skipped
deriving DecidableEq

/-- Scan trigger. -/
inductive Trigger
  | manual
  | scheduled
deriving DecidableEq

/-- Source kind (`inline_json` vs `json_url`) with its configuration. -/
inductive SourceConfig
  | inline_json (postings : List RawItem)
  | json_url (url : Str)
deriving DecidableEq

/-- A row of the `job_sources` table. -/
structure JobSourceRow where
  source_id : Str
  name : Str
  config : SourceConfig
  enabled : Bool
  created_at : Time
  updated_at : Time
  last_scan_at : Option Time := none
  last_success_at : Option Time := none
  last_status : Option ScanStatus := none
  last_error : Option Str := none
  next_eligible_scan_at : Option Time := none
  consecutive_failures : ℕ := 0
deriving DecidableEq

/-- A row of the append-only `job_source_scan_history` table. -/
structure ScanHistoryRow where
  source_id : Str
  scanned_at : Time
  trigger : Trigger
  status : ScanStatus
  fetched : ℕ
  ingested : ℕ
  possible_duplicates : ℕ
  attempt_number : ℕ
  backoff_seconds : ℤ
  next_eligible_scan_at : Option Time
  respect_backoff : Bool
  error : Option Str
deriving DecidableEq

/-- The `JobSourceScanResult` response model. -/
structure JobSourceScanResult where
  source_id : Str
  scanned_at : Time
  trigger : Trigger
  status : ScanStatus
  fetched : ℕ
  ingested : ℕ
  possible_duplicates : ℕ
  attempt_number : ℕ
  backoff_seconds : ℤ
  next_eligible_scan_at : Option Time
  error : Option Str
deriving DecidableEq

/-- Python `int()` on a rational (`int(delta.total_seconds())`): truncation
toward zero. -/
def pyInt (q : ℚ) : ℤ := if 0 ≤ q then ⌊q⌋ else ⌈q⌉

/-- Result of recording one scan attempt: the updated source row, the appended
history, and the returned scan result. -/
structure ScanRecordOutcome where
  source : JobSourceRow
  history : List ScanHistoryRow
  result : JobSourceScanResult
deriving DecidableEq

/-- `RecommenderRepository.record_job_source_scan_result` (source lines
1344–1478): compute attempt number, failure count, backoff and next-eligible
time from the outcome status, update the source row, append a history row and
build the result.  `updatedNow` is the `now_utc_iso()` used for the row's
`updated_at`.  In the `error` branch, `2 ** max(next_failure_count - 1, 0)` is
written with ℕ subtraction, which is exactly `max(· - 1, 0)`. -/
def record_job_source_scan_result (src : JobSourceRow) (history : List ScanHistoryRow)
    (scanned_at : Time) (trigger : Trigger) (status : ScanStatus)
    (fetched ingested possible_duplicates : ℕ) (error : Option Str)
    (respect_backoff : Bool) (updatedNow : Time) : ScanRecordOutcome :=
  let previous_failures := src.consecutive_failures
  let next_eligible_previous := src.next_eligible_scan_at
  let previous_last_error := src.last_error
  -- (attempt_number, backoff_seconds, next_eligible_scan_at, last_success_at,
  --  next_failure_count, last_error), after the per-status branch; the first
  -- component defaults are `previous_failures + 1`, `0`, `None`, `None`,
  -- `previous_failures`, `error`.
  let st : ℕ × ℤ × Option Time × Option Time × ℕ × Option Str :=
    match status with
    | .ok => (1, 0, none, some scanned_at, 0, none)
    | .error =>
      let next_failure_count := previous_failures + 1
      let backoff_seconds : ℤ := min (60 * 2 ^ (next_failure_count - 1)) 3600
      (previous_failures + 1, backoff_seconds,
        some (scanned_at + (backoff_seconds : ℚ)), none, next_failure_count, error)
    | .skipped =>
      let backoff_seconds : ℤ :=
        match next_eligible_previous with
        | some t => max (pyInt (t - scanned_at)) 0
        | none => 0
      (previous_failures + 1, backoff_seconds, next_eligible_previous, none,
        previous_failures, previous_last_error)
  let attempt_number := st.1
  let backoff_seconds := st.2.1
  let next_eligible_scan_at := st.2.2.1
  let last_success_at := st.2.2.2.1
  let next_failure_count := st.2.2.2.2.1
  let last_error := st.2.2.2.2.2
  let src' : JobSourceRow :=
    { src with
      last_scan_at := some scanned_at,
      -- SQL `last_success_at = COALESCE(?, last_success_at)`
      last_success_at := (match last_success_at with
        | some t => some t
        | none => src.last_success_at),
      last_status := some status,
      last_error := last_error,
      next_eligible_scan_at := next_eligible_scan_at,
      consecutive_failures := next_failure_count,
      updated_at := updatedNow }
  let historyRow : ScanHistoryRow :=
    { source_id := src.source_id, scanned_at := scanned_at, trigger := trigger,
      status := status, fetched := fetched, ingested := ingested,
      possible_duplicates := possible_duplicates, attempt_number := attempt_number,
      backoff_seconds := backoff_seconds, next_eligible_scan_at := next_eligible_scan_at,
      respect_backoff := respect_backoff, error := error }
  let result : JobSourceScanResult :=
    { source_id := src.source_id, scanned_at := scanned_at, trigger := trigger,
      status := status, fetched := fetched, ingested := ingested,
      possible_duplicates := possible_duplicates, attempt_number := attempt_number,
      backoff_seconds := backoff_seconds, next_eligible_scan_at := next_eligible_scan_at,
      error := error }
  ⟨src', history ++ [historyRow], result⟩

/-! ## Scan engine (`scan_source`) -/

/-- The persistent state a scan touches: the scanned source's row, the scan
history, and the postings table. -/
structure RepoState where
  source : JobSourceRow
  history : List ScanHistoryRow
  postings : List PostingRow
deriving DecidableEq

/-- `scan_source(repository, source, trigger=..., respect_backoff=...)`
(source lines 1813–1864).  `fetchOutcome` is the outcome of
`load_source_payload` resolved to the payload's raw postings list (inline
config data or fetched JSON; `.error` for a fetch/parse failure).  When
`respect_backoff` is set and the source's `next_eligible_scan_at` is strictly
in the future, the attempt is recorded as `skipped` without fetching;
otherwise the payload is mapped and upserted and the attempt recorded as `ok`,
with any exception along the way (fetch, mapping, upsert) caught and recorded
as `error` with nothing committed to the postings table. -/
def scan_source (digest : Str → Str) (repo : RepoState)
    (fetchOutcome : Except Str (List (Option RawItem)))
    (trigger : Trigger) (respect_backoff : Bool) (scanned_at : Time)
    (scan_marker : Str) (updatedNow : Time) : RepoState × JobSourceScanResult :=
  if respect_backoff ∧ (match repo.source.next_eligible_scan_at with
      | some t => decide (scanned_at < t)
      | none => false) = true then
    let o := record_job_source_scan_result repo.source repo.history scanned_at trigger
      .skipped 0 0 0 none respect_backoff updatedNow
    (⟨o.source, o.history, repo.postings⟩, o.result)
  else
    let attempt : Except Str (ℕ × List PostingRow × UpsertSummary) :=
      match fetchOutcome with
      | .error e => .error e
      | .ok raw =>
        match to_job_postings_from_payload digest repo.source.source_id raw
            scanned_at scan_marker with
        | .error e => .error e
        | .ok postings =>
          match upsert_postings digest repo.postings postings updatedNow with
          | .error e => .error e
          | .ok (table', summary) => .ok (postings.length, table', summary)
    match attempt with
    | .ok (fetched, table', summary) =>
      let o := record_job_source_scan_result repo.source repo.history scanned_at trigger
        .ok fetched summary.updated summary.possible_duplicates none respect_backoff updatedNow
      (⟨o.source, o.history, table'⟩, o.result)
    | .error e =>
      let o := record_job_source_scan_result repo.source repo.history scanned_at trigger
        .error 0 0 0 (some e) respect_backoff updatedNow
      (⟨o.source, o.history, repo.postings⟩, o.result)

/-! ## Source upsert and its validation (`JobSourceUpsertRequest`,
`RecommenderRepository.upsert_job_source`) -/

/-- The `source_type` literal of a source-upsert request. -/
inductive SourceType
  | inline_json
  | json_url
deriving DecidableEq

/-- The `JobSourceUpsertRequest` model (the `IngestedPosting` entries of an
inline source are carried as raw items, which is what the inline config is
read back as when scanning). -/
structure JobSourceUpsertRequest where
  source_id : Str
  name : Str
  source_type : SourceType
  enabled : Bool := true
  postings : List RawItem := []
  url : Option Str := none
deriving DecidableEq

/-- The `validate_source_config` model validator: an inline source must have
at least one posting and a `json_url` source must have a URL; run when the
request is parsed, before it can reach the repository. -/
def validate_source_config (r : JobSourceUpsertRequest) :
    Except Str JobSourceUpsertRequest :=
  if r.source_type = .inline_json ∧ r.postings = [] then
    .error ("Inline source must include at least one posting.".toList)
  else if r.source_type = .json_url ∧ r.url = none then
    .error ("json_url source must include a url.".toList)
  else .ok r

/-- `config_json()`: the configuration persisted for the source. -/
def requestConfig (r : JobSourceUpsertRequest) : SourceConfig :=
  match r.source_type with
  | .inline_json => .inline_json r.postings
  | .json_url => .json_url (r.url.getD [])

/-- `RecommenderRepository.upsert_job_source`: `INSERT ... ON CONFLICT(source_id)
DO UPDATE` over the `job_sources` table (update in place preserving
`created_at` and scan state, or append a fresh row). -/
def upsert_job_source (table : List JobSourceRow) (r : JobSourceUpsertRequest)
    (now : Time) : List JobSourceRow :=
  if table.any (fun s => s.source_id = r.source_id) then
    table.map (fun s =>
      if s.source_id = r.source_id then
        { s with name := r.name, config := requestConfig r,
                 enabled := r.enabled, updated_at := now }
      else s)
  else
    table ++ [{ source_id := r.source_id, name := r.name, config := requestConfig r,
                enabled := r.enabled, created_at := now, updated_at := now }]

/-- The source-upsert flow as the routing layer drives it: parse/validate the
request (pydantic raises a validation error before any repository call), then
upsert.  Returns the table (always) and either the stored row's table or the
validation error. -/
def handle_upsert_job_source (table : List JobSourceRow)
    (r : JobSourceUpsertRequest) (now : Time) :
    List JobSourceRow × Except Str Unit :=
  match validate_source_config r with
  | .error e => (table, .error e)
  | .ok r' => (upsert_job_source table r' now, .ok ())

/-! ## Ranking engine (`_token_overlap`, `_freshness_bonus`, `rank_postings`) -/

/-- `_token_overlap(reference, candidates)`:
`len(reference & candidates) / len(candidates)`, or 0 for empty candidates. -/
def _token_overlap (reference candidates : Finset Str) : ℚ :=
  if candidates = ∅ then 0
  else ((reference ∩ candidates).card : ℚ) / (candidates.card : ℚ)

/-- `_freshness_bonus(updated_at)`: step function of the age in hours at `now`
(`datetime.now(UTC)`); 0 for a missing timestamp. -/
def _freshness_bonus (now : Time) (updated_at : Option Time) : ℚ :=
  match updated_at with
  | none => 0
  | some updated =>
    let age_hours := (now - updated) / 3600
    if age_hours ≤ 24 then 6 / 100
    else if age_hours ≤ 72 then 3 / 100
    else if age_hours ≤ 168 then 1 / 100
    else 0

/-- Does `needle` start `hay`? (building block of Python's `in`). -/
def strStartsWith : Str → Str → Bool
  | [], _ => true
  | _ :: _, [] => false
  | c :: cs, d :: ds => c = d && strStartsWith cs ds

/-- Python's substring test `needle in hay`. -/
def strContains (needle : Str) : Str → Bool
  | [] => strStartsWith needle []
  | c :: rest => strStartsWith needle (c :: rest) || strContains needle rest

/-- The score breakdown attached to each recommendation (exact values; the
response model rounds them to four decimals for display). -/
structure ScoreBreakdown where
  title_overlap : ℚ
  description_overlap : ℚ
  preferred_keyword_overlap : ℚ
  preference_bonus : ℚ
  freshness_bonus : ℚ
  duplicate_penalty : ℚ
  final_score : ℚ
deriving DecidableEq

/-- One `RankedRecommendation`. -/
structure RankedRecommendation where
  id : Str
  title : Str
  company : Option Str
  location : Option Str
  apply_url : Option Str
  score : ℚ
  matched_terms : List Str
  score_breakdown : ScoreBreakdown
deriving DecidableEq

/-- The body of the `rank_postings` loop for one posting (source lines
1642–1701): token overlaps, preference/freshness bonuses, duplicate penalty,
clamped weighted sum, matched terms. -/
def scorePosting (now : Time) (resume_tokens preferred_keyword_tokens : Finset Str)
    (preferred_locations_normalized preferred_companies_normalized : Finset Str)
    (remote_only : Bool) (posting : JobPosting) : RankedRecommendation :=
  let title_tokens := tokenize posting.title
  let description_tokens := tokenize posting.description
  let company_tokens := tokenize (posting.company.getD [])
  let all_job_tokens := title_tokens ∪ description_tokens ∪ company_tokens
  let title_overlap := _token_overlap resume_tokens title_tokens
  let description_overlap := _token_overlap resume_tokens description_tokens
  let keyword_overlap := _token_overlap preferred_keyword_tokens all_job_tokens
  let normalized_company := normalize_text (posting.company.getD [])
  let normalized_location := normalize_text (posting.location.getD [])
  let remote_signal := strContains ("remote".toList)
    (normalize_text ((posting.location.getD []) ++ ' ' ::
      (posting.title ++ ' ' :: posting.description)))
  let preference_bonus : ℚ :=
    (if normalized_company ≠ [] ∧ normalized_company ∈ preferred_companies_normalized
      then 8 / 100 else 0)
    + (if normalized_location ≠ [] ∧ normalized_location ∈ preferred_locations_normalized
      then 8 / 100 else 0)
    + (if remote_only then (if remote_signal then 8 / 100 else -5 / 100) else 0)
  let freshness_bonus := _freshness_bonus now posting.updated_at
  let duplicate_penalty : ℚ := min (2 / 100 * posting.duplicate_hint_count) (8 / 100)
  let score : ℚ :=
    55 / 100 * title_overlap + 35 / 100 * description_overlap
      + 10 / 100 * keyword_overlap + preference_bonus + freshness_bonus
      - duplicate_penalty
  let score := max score 0
  let matched_terms := ((resume_tokens ∩ all_job_tokens).sort (· ≤ ·)).take 12
  { id := posting.id, title := posting.title, company := posting.company,
    location := posting.location, apply_url := posting.apply_url,
    score := score, matched_terms := matched_terms,
    score_breakdown :=
      { title_overlap := title_overlap, description_overlap := description_overlap,
        preferred_keyword_overlap := keyword_overlap,
        preference_bonus := preference_bonus, freshness_bonus := freshness_bonus,
        duplicate_penalty := duplicate_penalty, final_score := score } }

/-- `rank_postings(resume_text, postings, preferred_keywords=...,
preferred_locations=..., preferred_companies=..., remote_only=...)`: score
every posting, then sort descending by score (Python's stable `list.sort` with
`reverse=True`, modelled by a stable merge sort with the reversed
comparison). -/
def rank_postings (now : Time) (resume_text : Str) (postings : List JobPosting)
    (preferred_keywords preferred_locations preferred_companies : List Str)
    (remote_only : Bool) : List RankedRecommendation :=
  let resume_tokens := tokenize resume_text
  let preferred_keyword_tokens := tokenize (joinWords preferred_keywords)
  let preferred_locations_normalized := (preferred_locations.map normalize_text).toFinset
  let preferred_companies_normalized := (preferred_companies.map normalize_text).toFinset
  let ranked := postings.map (scorePosting now resume_tokens preferred_keyword_tokens
    preferred_locations_normalized preferred_companies_normalized remote_only)
  ranked.mergeSort (fun a b => b.score ≤ a.score)

/-! ## Theorems -/

/-- C2: recording a scan attempt with outcome `error` increments the source's
`consecutive_failures` by 1 and records
`backoff_seconds = min(60 * 2^(consecutive_failures-1), 3600)`; a source
failing three times in a row from zero failures gets backoffs of 60, 120 and
240 seconds; the backoff never exceeds 3600 seconds at any failure count. -/
theorem scan_error_backoff
    (src src0 : JobSourceRow) (history history0 : List ScanHistoryRow)
    (scanned_at t1 t2 t3 : Time) (trigger : Trigger)
    (fetched ingested dups : ℕ) (err : Option Str) (rb : Bool) (unow : Time)
    (h0 : src0.consecutive_failures = 0) :
    ((record_job_source_scan_result src history scanned_at trigger .error
        fetched ingested dups err rb unow).source.consecutive_failures =
      src.consecutive_failures + 1 ∧
     (record_job_source_scan_result src history scanned_at trigger .error
        fetched ingested dups err rb unow).result.backoff_seconds =
      min (60 * 2 ^ (src.consecutive_failures + 1 - 1)) 3600 ∧
     (record_job_source_scan_result src history scanned_at trigger .error
        fetched ingested dups err rb unow).result.backoff_seconds ≤ 3600) ∧
    ((record_job_source_scan_result src0 history0 t1 trigger .error
        fetched ingested dups err rb unow).result.backoff_seconds = 60 ∧
     (record_job_source_scan_result
        (record_job_source_scan_result src0 history0 t1 trigger .error
          fetched ingested dups err rb unow).source
        [] t2 trigger .error fetched ingested dups err rb unow).result.backoff_seconds = 120 ∧
     (record_job_source_scan_result
        (record_job_source_scan_result
          (record_job_source_scan_result src0 history0 t1 trigger .error
            fetched ingested dups err rb unow).source
          [] t2 trigger .error fetched ingested dups err rb unow).source
        [] t3 trigger .error fetched ingested dups err rb unow).result.backoff_seconds = 240) := by
  refine ⟨⟨rfl, rfl, min_le_right _ _⟩, ?_⟩
  simp only [record_job_source_scan_result, h0]
  norm_num

/-- C3: recording a scan attempt with outcome `ok` resets
`consecutive_failures` to 0, clears `last_error`, resets the attempt number to
1, sets `last_success_at` to the scan time and clears the backoff window
(`next_eligible_scan_at = None`), regardless of prior failure count. -/
theorem scan_ok_resets
    (src : JobSourceRow) (history : List ScanHistoryRow)
    (scanned_at : Time) (trigger : Trigger)
    (fetched ingested dups : ℕ) (err : Option Str) (rb : Bool) (unow : Time) :
    (record_job_source_scan_result src history scanned_at trigger .ok
        fetched ingested dups err rb unow).source.consecutive_failures = 0 ∧
    (record_job_source_scan_result src history scanned_at trigger .ok
        fetched ingested dups err rb unow).source.last_error = none ∧
    (record_job_source_scan_result src history scanned_at trigger .ok
        fetched ingested dups err rb unow).result.attempt_number = 1 ∧
    (record_job_source_scan_result src history scanned_at trigger .ok
        fetched ingested dups err rb unow).source.last_success_at = some scanned_at ∧
    (record_job_source_scan_result src history scanned_at trigger .ok
        fetched ingested dups err rb unow).source.next_eligible_scan_at = none :=
  ⟨rfl, rfl, rfl, rfl, rfl⟩

/-- A concrete configured source with fresh scan state, for witnesses. -/
def sampleSource : JobSourceRow :=
  { source_id := "demo".toList, name := "Demo".toList,
    config := .json_url ("https://example.com/feed.json".toList),
    enabled := true, created_at := 0, updated_at := 0 }

/-- Witness for C2 at a concrete source with zero consecutive failures. -/
theorem scan_error_backoff_witness :
    sampleSource.consecutive_failures = 0 ∧
    (record_job_source_scan_result sampleSource [] 0 .manual .error
      0 0 0 none false 0).result.backoff_seconds = 60 :=
  ⟨rfl, (scan_error_backoff sampleSource sampleSource [] [] 0 0 0 0 .manual
    0 0 0 none false 0 rfl).2.1⟩

/-- C9: a source-upsert request that is an inline source with no postings, or
a URL source with no URL, is rejected by validation before any state change:
the `job_sources` table is untouched. -/
theorem upsert_source_validation_rejects
    (table : List JobSourceRow) (r : JobSourceUpsertRequest) (now : Time)
    (h : (r.source_type = .inline_json ∧ r.postings = []) ∨
         (r.source_type = .json_url ∧ r.url = none)) :
    (handle_upsert_job_source table r now).1 = table ∧
    ∃ e, (handle_upsert_job_source table r now).2 = .error e := by
  rcases h with ⟨h1, h2⟩ | ⟨h1, h2⟩
  · unfold handle_upsert_job_source validate_source_config
    simp [h1, h2]
  · unfold handle_upsert_job_source validate_source_config
    simp [h1, h2]

/-- Witness for C9: a concrete inline request with no postings is rejected and
the (empty) table stays empty. -/
theorem upsert_source_validation_rejects_witness :
    ((JobSourceUpsertRequest.source_type
        ⟨"abc".toList, "n".toList, .inline_json, true, [], none⟩ = .inline_json ∧
      JobSourceUpsertRequest.postings
        ⟨"abc".toList, "n".toList, .inline_json, true, [], none⟩ = []) ∨
     (JobSourceUpsertRequest.source_type
        ⟨"abc".toList, "n".toList, .inline_json, true, [], none⟩ = .json_url ∧
      JobSourceUpsertRequest.url
        ⟨"abc".toList, "n".toList, .inline_json, true, [], none⟩ = none)) ∧
    ((handle_upsert_job_source []
        ⟨"abc".toList, "n".toList, .inline_json, true, [], none⟩ 0).1 = [] ∧
     ∃ e, (handle_upsert_job_source []
        ⟨"abc".toList, "n".toList, .inline_json, true, [], none⟩ 0).2 = .error e) :=
  ⟨Or.inl ⟨rfl, rfl⟩,
   upsert_source_validation_rejects []
     ⟨"abc".toList, "n".toList, .inline_json, true, [], none⟩ 0 (Or.inl ⟨rfl, rfl⟩)⟩

/-- C4 (amended): a scan of a source whose `next_eligible_scan_at` is strictly
in the future, with `respectBackoff=true`, yields outcome `skipped`, performs
no fetch and ingests nothing (the postings table is untouched), leaves
`consecutive_failures` and `next_eligible_scan_at` unchanged, appends exactly
one scan-history row, and reports `backoff_seconds` equal to the remaining
window truncated to whole seconds — hence ≥ 0 always, and > 0 whenever at
least one full second of the window remains (but 0 in a sub-second window:
the claim's unconditional `backoff_seconds > 0` fails, see the
counterexample). -/
theorem scan_skip_in_backoff
    (digest : Str → Str) (repo : RepoState)
    (fetch : Except Str (List (Option RawItem))) (trigger : Trigger)
    (scanned_at : Time) (marker : Str) (unow : Time) (t : Time)
    (hne : repo.source.next_eligible_scan_at = some t)
    (hfut : scanned_at < t) :
    (scan_source digest repo fetch trigger true scanned_at marker unow).2.status = .skipped ∧
    (scan_source digest repo fetch trigger true scanned_at marker unow).2.fetched = 0 ∧
    (scan_source digest repo fetch trigger true scanned_at marker unow).2.ingested = 0 ∧
    (scan_source digest repo fetch trigger true scanned_at marker unow).1.postings = repo.postings ∧
    (scan_source digest repo fetch trigger true scanned_at marker unow).1.source.consecutive_failures
      = repo.source.consecutive_failures ∧
    (scan_source digest repo fetch trigger true scanned_at marker unow).1.source.next_eligible_scan_at
      = repo.source.next_eligible_scan_at ∧
    (scan_source digest repo fetch trigger true scanned_at marker unow).2.backoff_seconds
      = max (pyInt (t - scanned_at)) 0 ∧
    0 ≤ (scan_source digest repo fetch trigger true scanned_at marker unow).2.backoff_seconds ∧
    (1 ≤ t - scanned_at →
      0 < (scan_source digest repo fetch trigger true scanned_at marker unow).2.backoff_seconds) ∧
    ∃ row, (scan_source digest repo fetch trigger true scanned_at marker unow).1.history
      = repo.history ++ [row] ∧ row.status = .skipped := by
  have hcond : (true = true ∧ (match repo.source.next_eligible_scan_at with
      | some t => decide (scanned_at < t)
      | none => false) = true) := by
    refine ⟨rfl, ?_⟩
    rw [hne]
    exact decide_eq_true hfut
  unfold scan_source
  rw [if_pos hcond]
  unfold record_job_source_scan_result
  rw [hne]
  refine ⟨rfl, rfl, rfl, rfl, rfl, rfl, rfl, le_max_right _ _, ?_, ?_⟩
  · intro h1
    have h0 : (0:ℚ) ≤ t - scanned_at := le_trans (by norm_num) h1
    have : (1:ℤ) ≤ pyInt (t - scanned_at) := by
      unfold pyInt
      rw [if_pos h0]
      exact Int.le_floor.mpr (by exact_mod_cast h1)
    exact lt_of_lt_of_le one_pos (le_trans this (le_max_left _ _))
  · exact ⟨_, rfl, rfl⟩

/-- Counterexample for C4 as stated: with half a second of the backoff window
remaining (`next_eligible_scan_at = scanned_at + 1/2`), the skipped scan
reports `backoff_seconds = 0`, not `> 0` (Python truncates
`int(delta.total_seconds())` toward zero). -/
theorem scan_skip_zero_backoff_counterexample :
    ((scan_source id
        ⟨{ sampleSource with next_eligible_scan_at := some (1/2 : ℚ) }, [], []⟩
        (.ok []) .manual true 0 [] 0).2.status = .skipped ∧
     (0 : ℚ) < (1/2 : ℚ)) ∧
    ¬ (0 < (scan_source id
        ⟨{ sampleSource with next_eligible_scan_at := some (1/2 : ℚ) }, [], []⟩
        (.ok []) .manual true 0 [] 0).2.backoff_seconds) := by
  have hmain :
      (scan_source id
        ⟨{ sampleSource with next_eligible_scan_at := some (1/2 : ℚ) }, [], []⟩
        (.ok []) .manual true 0 [] 0).2.status = .skipped ∧
      (scan_source id
        ⟨{ sampleSource with next_eligible_scan_at := some (1/2 : ℚ) }, [], []⟩
        (.ok []) .manual true 0 [] 0).2.backoff_seconds = max (pyInt ((1/2 : ℚ) - 0)) 0 := by
    unfold scan_source
    rw [if_pos ⟨rfl, decide_eq_true (by norm_num)⟩]
    exact ⟨rfl, rfl⟩
  refine ⟨⟨hmain.1, by norm_num⟩, ?_⟩
  rw [hmain.2]
  have hfloor : pyInt ((1/2 : ℚ) - 0) = 0 := by
    unfold pyInt
    rw [if_pos (by norm_num)]
    rw [show ((1:ℚ)/2 - 0) = 1/2 by norm_num]
    rw [Int.floor_eq_zero_iff.mpr (by constructor <;> norm_num)]
  rw [hfloor]
  norm_num

/-- The upserted row is present in the table afterwards (with its `created_at`
possibly inherited from the replaced row). -/
theorem upsertRow_mem (table : List PostingRow) (row : PostingRow) :
    ∃ r ∈ upsertRow table row, ∃ c, r = { row with created_at := c } := by
  unfold upsertRow
  by_cases hc : table.any (fun r => r.id = row.id)
  · rw [if_pos hc]
    obtain ⟨r, hr, hid⟩ := List.any_eq_true.mp hc
    refine ⟨{ row with created_at := r.created_at }, ?_, r.created_at, rfl⟩
    refine List.mem_map.mpr ⟨r, hr, ?_⟩
    rw [if_pos (of_decide_eq_true hid)]
  · rw [if_neg hc]
    exact ⟨row, List.mem_append_right _ (List.mem_singleton.mpr rfl), row.created_at, rfl⟩

/-- Every row of an upserted table is the new row (up to `created_at`) or an
untouched old row. -/
theorem upsertRow_mem_cases (table : List PostingRow) (row r' : PostingRow)
    (h : r' ∈ upsertRow table row) :
    (∃ c, r' = { row with created_at := c }) ∨ r' ∈ table := by
  unfold upsertRow at h
  by_cases hc : table.any (fun r => r.id = row.id)
  · rw [if_pos hc] at h
    obtain ⟨r, hr, heq⟩ := List.mem_map.mp h
    by_cases hid : r.id = row.id
    · rw [if_pos hid] at heq
      exact Or.inl ⟨r.created_at, heq.symm⟩
    · rw [if_neg hid] at heq
      exact Or.inr (heq ▸ hr)
  · rw [if_neg hc] at h
    rcases List.mem_append.mp h with h | h
    · exact Or.inr h
    · exact Or.inl ⟨row.created_at, List.mem_singleton.mp h⟩

/-- After a successful `processPosting`, the posting's row is in the table:
its title is the whitespace-normalized title and its description falls back to
that title when the whitespace-normalized description is empty. -/
theorem processPosting_ok_mem (digest : Str → Str) (now : Time) (p : JobPosting)
    (table t' : List PostingRow) (d : Bool)
    (h : processPosting digest now p table = .ok (t', d)) :
    ∃ r ∈ t', r.id = p.id ∧ r.title = normalize_whitespace p.title ∧
      r.description = orElse (normalize_whitespace p.description) (normalize_whitespace p.title) := by
  simp only [processPosting] at h
  cases hurl : normalize_url (noneIfEmpty (pyStrip (p.apply_url.getD []))) with
  | error e =>
    rw [hurl] at h
    exact absurd h (by simp)
  | ok nu =>
    rw [hurl] at h
    rw [Except.ok.injEq, Prod.mk.injEq] at h
    obtain ⟨ht, _⟩ := h
    subst ht
    obtain ⟨r, hr, c, hc⟩ := upsertRow_mem _ _
    exact ⟨r, hr, by rw [hc], by rw [hc], by rw [hc]⟩

/-- After a successful `processPosting`, every row is either the new row (its
title/description as normalized from the posting) or an untouched old row. -/
theorem processPosting_ok_cases (digest : Str → Str) (now : Time) (p : JobPosting)
    (table t' : List PostingRow) (d : Bool)
    (h : processPosting digest now p table = .ok (t', d)) :
    ∀ r' ∈ t',
      (r'.id = p.id ∧ r'.title = normalize_whitespace p.title ∧
        r'.description = orElse (normalize_whitespace p.description)
          (normalize_whitespace p.title)) ∨ r' ∈ table := by
  simp only [processPosting] at h
  cases hurl : normalize_url (noneIfEmpty (pyStrip (p.apply_url.getD []))) with
  | error e =>
    rw [hurl] at h
    exact absurd h (by simp)
  | ok nu =>
    rw [hurl] at h
    rw [Except.ok.injEq, Prod.mk.injEq] at h
    obtain ⟨ht, _⟩ := h
    subst ht
    intro r' hr'
    rcases upsertRow_mem_cases _ _ _ hr' with ⟨c, hc⟩ | hold
    · exact Or.inl ⟨by rw [hc], by rw [hc], by rw [hc]⟩
    · exact Or.inr hold

/-- The description fallback is never empty when the normalized title is
nonempty. -/
theorem orElse_ne_nil (s t : Str) (ht : t ≠ []) : orElse s t ≠ [] := by
  unfold orElse
  by_cases hs : s = []
  · rw [if_pos hs]; exact ht
  · rw [if_neg hs]; exact hs

/-- The `upsert_postings` loop preserves the "nonempty title implies nonempty
description" table invariant. -/
theorem upsertLoop_description_invariant (digest : Str → Str) (now : Time) :
    ∀ (postings : List JobPosting) (table : List PostingRow) (dups : ℕ)
      (table' : List PostingRow) (dups' : ℕ),
      upsertLoop digest now postings table dups = .ok (table', dups') →
      (∀ r ∈ table, r.title ≠ [] → r.description ≠ []) →
      ∀ r ∈ table', r.title ≠ [] → r.description ≠ [] := by
  intro postings
  induction postings with
  | nil =>
    intro table dups table' dups' h hinv
    simp only [upsertLoop] at h
    rw [Except.ok.injEq, Prod.mk.injEq] at h
    obtain ⟨ht, _⟩ := h
    subst ht
    exact hinv
  | cons p ps ih =>
    intro table dups table' dups' h hinv
    simp only [upsertLoop] at h
    cases hp : processPosting digest now p table with
    | error e => rw [hp] at h; exact absurd h (by simp)
    | ok td =>
      rw [hp] at h
      refine ih td.1 _ table' dups' h ?_
      intro r hr hti
      rcases processPosting_ok_cases digest now p table td.1 td.2 (by rw [hp]) r hr with
        ⟨_, htitle, hdesc⟩ | hold
      · rw [hdesc]
        refine orElse_ne_nil _ _ ?_
        intro hnil
        rw [htitle, hnil] at hti
        exact hti rfl
      · exact hinv r hold hti

/-- Every posting produced by the payload-mapping loop has a nonempty title
and a nonempty description, the latter falling back to the title when the
item's stripped description normalizes to empty. -/
theorem toJobPostingsLoop_description (digest : Str → Str) (sid : Str)
    (t : Time) (marker : Str) :
    ∀ (items : List (Option RawItem)) (index : ℕ) (out : List JobPosting),
      toJobPostingsLoop digest sid t marker items index = .ok out →
      ∀ p ∈ out, p.title ≠ [] ∧ p.description ≠ [] ∧
        ∃ item : RawItem,
          p.title = normalize_whitespace (pyStrip (item.title.getD [])) ∧
          p.description = orElse (normalize_whitespace (pyStrip (item.description.getD []))) p.title := by
  intro items
  induction items with
  | nil =>
    intro index out h p hp
    simp only [toJobPostingsLoop] at h
    rw [Except.ok.injEq] at h
    subst h
    exact absurd hp (List.not_mem_nil p)
  | cons hd rest ih =>
    intro index out h p hp
    cases hd with
    | none =>
      simp only [toJobPostingsLoop] at h
      exact ih _ out h p hp
    | some item =>
      simp only [toJobPostingsLoop] at h
      by_cases hti : normalize_whitespace (pyStrip (item.title.getD [])) = []
      · rw [if_pos hti] at h
        exact ih _ out h p hp
      · rw [if_neg hti] at h
        cases hdk : build_dedup_key digest (normalize_whitespace (pyStrip (item.title.getD [])))
            (noneIfEmpty (normalize_whitespace (pyStrip (item.company.getD []))))
            (noneIfEmpty (normalize_whitespace (pyStrip (item.location.getD []))))
            (noneIfEmpty (pyStrip (item.apply_url.getD []))) with
        | error e => rw [hdk] at h; exact absurd h (by simp)
        | ok dk =>
          rw [hdk] at h
          cases htail : toJobPostingsLoop digest sid t marker rest (index + 1) with
          | error e => rw [htail] at h; exact absurd h (by simp)
          | ok tail =>
            rw [htail] at h
            rw [Except.ok.injEq] at h
            subst h
            rcases List.mem_cons.mp hp with hph | hpt
            · subst hph
              refine ⟨hti, orElse_ne_nil _ _ hti, item, rfl, rfl⟩
            · exact ih _ tail htail p hpt

/-- The fallback collapses to its second argument on an empty first. -/
theorem orElse_nil (t : Str) : orElse [] t = t := by
  unfold orElse
  rw [if_pos rfl]

/-- C10: a posting whose description is empty or whitespace-only gets the
whitespace-normalized title stored as its description, on both the direct
upsert path (`upsert_postings`) and the scan-ingestion path
(`to_job_postings_from_payload`), so no stored posting has an empty
description when its title is nonempty: (a) a processed posting's row stores
the normalized title as description whenever the normalized description is
empty; (b) `upsert_postings` preserves the table invariant "nonempty title
implies nonempty description"; (c) every ingested posting has a nonempty
title and description; (d) an ingested item whose stripped description
normalizes to empty yields a posting whose description equals its title. -/
theorem empty_description_defaults_to_title
    (digest : Str → Str) (now : Time) (p : JobPosting)
    (tbl t' : List PostingRow) (d : Bool)
    (hp : processPosting digest now p tbl = .ok (t', d))
    (table₀ : List PostingRow) (postings : List JobPosting)
    (table₂ : List PostingRow) (summary : UpsertSummary)
    (hup : upsert_postings digest table₀ postings now = .ok (table₂, summary))
    (hinv : ∀ r ∈ table₀, r.title ≠ [] → r.description ≠ [])
    (sid : Str) (tm : Time) (marker : Str) (items : List (Option RawItem))
    (index : ℕ) (out : List JobPosting)
    (hsc : toJobPostingsLoop digest sid tm marker items index = .ok out)
    (item : RawItem) (index₂ : ℕ) (out₂ : List JobPosting)
    (hempty : normalize_whitespace (pyStrip (item.description.getD [])) = [])
    (hsc₂ : toJobPostingsLoop digest sid tm marker [some item] index₂ = .ok out₂) :
    (normalize_whitespace p.description = [] →
      ∃ r ∈ t', r.id = p.id ∧ r.title = normalize_whitespace p.title ∧
        r.description = normalize_whitespace p.title) ∧
    (∀ r ∈ table₂, r.title ≠ [] → r.description ≠ []) ∧
    (∀ q ∈ out, q.title ≠ [] ∧ q.description ≠ []) ∧
    (∀ q ∈ out₂, q.description = q.title) := by
  refine ⟨?_, ?_, ?_, ?_⟩
  · intro hde
    obtain ⟨r, hr, hid, hti, hdesc⟩ := processPosting_ok_mem digest now p tbl t' d hp
    rw [hde, orElse_nil] at hdesc
    exact ⟨r, hr, hid, hti, hdesc⟩
  · simp only [upsert_postings] at hup
    cases hl : upsertLoop digest now postings table₀ 0 with
    | error e => rw [hl] at hup; exact absurd hup (by simp)
    | ok td =>
      rw [hl] at hup
      rw [Except.ok.injEq, Prod.mk.injEq] at hup
      obtain ⟨ht, _⟩ := hup
      subst ht
      exact upsertLoop_description_invariant digest now postings table₀ 0 td.1 td.2
        (by rw [hl]) hinv
  · intro q hq
    obtain ⟨h1, h2, _⟩ := toJobPostingsLoop_description digest sid tm marker items index out hsc q hq
    exact ⟨h1, h2⟩
  · intro q hq
    simp only [toJobPostingsLoop] at hsc₂
    by_cases hti : normalize_whitespace (pyStrip (item.title.getD [])) = []
    · rw [if_pos hti] at hsc₂
      rw [Except.ok.injEq] at hsc₂
      subst hsc₂
      exact absurd hq (List.not_mem_nil q)
    · rw [if_neg hti] at hsc₂
      cases hdk : build_dedup_key digest (normalize_whitespace (pyStrip (item.title.getD [])))
          (noneIfEmpty (normalize_whitespace (pyStrip (item.company.getD []))))
          (noneIfEmpty (normalize_whitespace (pyStrip (item.location.getD []))))
          (noneIfEmpty (pyStrip (item.apply_url.getD []))) with
      | error e => rw [hdk] at hsc₂; exact absurd hsc₂ (by simp)
      | ok dk =>
        rw [hdk] at hsc₂
        injection hsc₂ with hout
        subst hout
        rcases List.mem_cons.mp hq with hqh | hqt
        · subst hqh
          show orElse (normalize_whitespace (pyStrip (item.description.getD []))) _ = _
          rw [hempty, orElse_nil]
        · exact absurd hqt (List.not_mem_nil q)

/-- A posting with an omitted (empty) description, for witnesses. -/
def descLessPosting : JobPosting := { id := "a".toList, title := "T".toList }

/-- The row `upsert_postings` stores for `descLessPosting` (with an identity
digest): description defaulted to the title. -/
def descLessRow : PostingRow :=
  { id := "a".toList, title := "T".toList, description := "T".toList,
    company := none, location := none, apply_url := none, source_id := none,
    external_id := none, normalized_title := "t".toList, normalized_company := [],
    normalized_location := [], normalized_url := [], dedup_key := "t|||".toList,
    duplicate_hint_count := 0, created_at := 0, updated_at := 0 }

/-- A raw payload item with a title and no description, for witnesses. -/
def descLessItem : RawItem := { title := some ("T".toList) }

/-- The posting `to_job_postings_from_payload` builds from `descLessItem`
(identity digest, source "s", scan marker empty): description defaulted. -/
def descLessIngested : JobPosting :=
  { id := "s::s|T|T||||1|".toList, title := "T".toList, description := "T".toList,
    company := none, location := none, apply_url := none,
    source_id := some ("s".toList), external_id := none, updated_at := some 0,
    dedup_key := some ("t|||".toList), duplicate_hint_count := 0 }

/-- Witness for C10 at concrete inputs on both paths. -/
theorem empty_description_defaults_to_title_witness :
    (processPosting id 0 descLessPosting [] = .ok ([descLessRow], false) ∧
     upsert_postings id [] [descLessPosting] 0 = .ok ([descLessRow], ⟨1, 0⟩) ∧
     toJobPostingsLoop id ("s".toList) 0 [] [some descLessItem] 1 = .ok [descLessIngested] ∧
     normalize_whitespace (pyStrip (descLessItem.description.getD [])) = []) ∧
    ((normalize_whitespace descLessPosting.description = [] →
      ∃ r ∈ [descLessRow], r.id = descLessPosting.id ∧
        r.title = normalize_whitespace descLessPosting.title ∧
        r.description = normalize_whitespace descLessPosting.title) ∧
     (∀ r ∈ [descLessRow], r.title ≠ [] → r.description ≠ []) ∧
     (∀ q ∈ [descLessIngested], q.title ≠ [] ∧ q.description ≠ []) ∧
     (∀ q ∈ [descLessIngested], q.description = q.title)) :=
  ⟨⟨by simp [processPosting, upsert_postings, upsertLoop, upsertRow, toJobPostingsLoop, build_dedup_key, normalize_url, dedupKeyOfNormalized, normalize_text, normalize_whitespace, pySplit, wordsBy_cons, wordsBy_nil, joinWords, lowerStr, subBadRuns_cons, subBadRuns_nil, isBad, isKept, pyIsSpace, pyStrip, orElse, noneIfEmpty, firstStripped, natToStr, descLessPosting, descLessRow, descLessItem, descLessIngested, Nat.repr, Nat.toDigits, Nat.toDigitsCore, Nat.digitChar, List.asString, String.toList], by simp [processPosting, upsert_postings, upsertLoop, upsertRow, toJobPostingsLoop, build_dedup_key, normalize_url, dedupKeyOfNormalized, normalize_text, normalize_whitespace, pySplit, wordsBy_cons, wordsBy_nil, joinWords, lowerStr, subBadRuns_cons, subBadRuns_nil, isBad, isKept, pyIsSpace, pyStrip, orElse, noneIfEmpty, firstStripped, natToStr, descLessPosting, descLessRow, descLessItem, descLessIngested, Nat.repr, Nat.toDigits, Nat.toDigitsCore, Nat.digitChar, List.asString, String.toList], by simp [processPosting, upsert_postings, upsertLoop, upsertRow, toJobPostingsLoop, build_dedup_key, normalize_url, dedupKeyOfNormalized, normalize_text, normalize_whitespace, pySplit, wordsBy_cons, wordsBy_nil, joinWords, lowerStr, subBadRuns_cons, subBadRuns_nil, isBad, isKept, pyIsSpace, pyStrip, orElse, noneIfEmpty, firstStripped, natToStr, descLessPosting, descLessRow, descLessItem, descLessIngested, Nat.repr, Nat.toDigits, Nat.toDigitsCore, Nat.digitChar, List.asString, String.toList], by simp [processPosting, upsert_postings, upsertLoop, upsertRow, toJobPostingsLoop, build_dedup_key, normalize_url, dedupKeyOfNormalized, normalize_text, normalize_whitespace, pySplit, wordsBy_cons, wordsBy_nil, joinWords, lowerStr, subBadRuns_cons, subBadRuns_nil, isBad, isKept, pyIsSpace, pyStrip, orElse, noneIfEmpty, firstStripped, natToStr, descLessPosting, descLessRow, descLessItem, descLessIngested, Nat.repr, Nat.toDigits, Nat.toDigitsCore, Nat.digitChar, List.asString, String.toList]⟩,
   empty_description_defaults_to_title id 0 descLessPosting [] [descLessRow] false (by simp [processPosting, upsert_postings, upsertLoop, upsertRow, toJobPostingsLoop, build_dedup_key, normalize_url, dedupKeyOfNormalized, normalize_text, normalize_whitespace, pySplit, wordsBy_cons, wordsBy_nil, joinWords, lowerStr, subBadRuns_cons, subBadRuns_nil, isBad, isKept, pyIsSpace, pyStrip, orElse, noneIfEmpty, firstStripped, natToStr, descLessPosting, descLessRow, descLessItem, descLessIngested, Nat.repr, Nat.toDigits, Nat.toDigitsCore, Nat.digitChar, List.asString, String.toList])
     [] [descLessPosting] [descLessRow] ⟨1, 0⟩ (by simp [processPosting, upsert_postings, upsertLoop, upsertRow, toJobPostingsLoop, build_dedup_key, normalize_url, dedupKeyOfNormalized, normalize_text, normalize_whitespace, pySplit, wordsBy_cons, wordsBy_nil, joinWords, lowerStr, subBadRuns_cons, subBadRuns_nil, isBad, isKept, pyIsSpace, pyStrip, orElse, noneIfEmpty, firstStripped, natToStr, descLessPosting, descLessRow, descLessItem, descLessIngested, Nat.repr, Nat.toDigits, Nat.toDigitsCore, Nat.digitChar, List.asString, String.toList])
     (by intro r hr; exact absurd hr (List.not_mem_nil r))
     ("s".toList) 0 [] [some descLessItem] 1 [descLessIngested] (by simp [processPosting, upsert_postings, upsertLoop, upsertRow, toJobPostingsLoop, build_dedup_key, normalize_url, dedupKeyOfNormalized, normalize_text, normalize_whitespace, pySplit, wordsBy_cons, wordsBy_nil, joinWords, lowerStr, subBadRuns_cons, subBadRuns_nil, isBad, isKept, pyIsSpace, pyStrip, orElse, noneIfEmpty, firstStripped, natToStr, descLessPosting, descLessRow, descLessItem, descLessIngested, Nat.repr, Nat.toDigits, Nat.toDigitsCore, Nat.digitChar, List.asString, String.toList])
     descLessItem 1 [descLessIngested] (by simp [processPosting, upsert_postings, upsertLoop, upsertRow, toJobPostingsLoop, build_dedup_key, normalize_url, dedupKeyOfNormalized, normalize_text, normalize_whitespace, pySplit, wordsBy_cons, wordsBy_nil, joinWords, lowerStr, subBadRuns_cons, subBadRuns_nil, isBad, isKept, pyIsSpace, pyStrip, orElse, noneIfEmpty, firstStripped, natToStr, descLessPosting, descLessRow, descLessItem, descLessIngested, Nat.repr, Nat.toDigits, Nat.toDigitsCore, Nat.digitChar, List.asString, String.toList]) (by simp [processPosting, upsert_postings, upsertLoop, upsertRow, toJobPostingsLoop, build_dedup_key, normalize_url, dedupKeyOfNormalized, normalize_text, normalize_whitespace, pySplit, wordsBy_cons, wordsBy_nil, joinWords, lowerStr, subBadRuns_cons, subBadRuns_nil, isBad, isKept, pyIsSpace, pyStrip, orElse, noneIfEmpty, firstStripped, natToStr, descLessPosting, descLessRow, descLessItem, descLessIngested, Nat.repr, Nat.toDigits, Nat.toDigitsCore, Nat.digitChar, List.asString, String.toList])⟩

/-- `ON CONFLICT` upsert of an already-present identity does not change the
table's row count. -/
theorem upsertRow_length_of_any (table : List PostingRow) (row : PostingRow)
    (h : table.any (fun r => r.id = row.id) = true) :
    (upsertRow table row).length = table.length := by
  unfold upsertRow
  rw [if_pos h, List.length_map]

/-- C6: (a) upserting the same posting identity twice updates the stored
fields in place — the table keeps its row count and carries the second
posting's normalized fields and timestamp under that identity; (b) upserting
two postings with different identities but identical normalized
title/company/location/apply-URL fields (no caller-supplied dedup key) leaves
the second with `duplicate_hint_count ≥ 1`. -/
theorem upsert_identity_and_duplicate_hint
    (digest : Str → Str) (tbl : List PostingRow) (p q : JobPosting)
    (now₁ now₂ : Time) (t₁ t₂ : List PostingRow) (d₁ d₂ : Bool)
    (hqp : q.id = p.id)
    (h1 : processPosting digest now₁ p tbl = .ok (t₁, d₁))
    (h2 : processPosting digest now₂ q t₁ = .ok (t₂, d₂))
    (tbl' : List PostingRow) (p1 p2 : JobPosting) (now₃ now₄ : Time)
    (u₁ u₂ : List PostingRow) (e₁ e₂ : Bool)
    (hne : p1.id ≠ p2.id)
    (hk1 : p1.dedup_key = none) (hk2 : p2.dedup_key = none)
    (hT : normalize_text (normalize_whitespace p1.title)
        = normalize_text (normalize_whitespace p2.title))
    (hC : normalize_text ((noneIfEmpty (normalize_whitespace (p1.company.getD []))).getD [])
        = normalize_text ((noneIfEmpty (normalize_whitespace (p2.company.getD []))).getD []))
    (hL : normalize_text ((noneIfEmpty (normalize_whitespace (p1.location.getD []))).getD [])
        = normalize_text ((noneIfEmpty (normalize_whitespace (p2.location.getD []))).getD []))
    (hU : normalize_url (noneIfEmpty (pyStrip (p1.apply_url.getD [])))
        = normalize_url (noneIfEmpty (pyStrip (p2.apply_url.getD []))))
    (g1 : processPosting digest now₃ p1 tbl' = .ok (u₁, e₁))
    (g2 : processPosting digest now₄ p2 u₁ = .ok (u₂, e₂)) :
    (t₂.length = t₁.length ∧
     ∃ r ∈ t₂, r.id = q.id ∧ r.title = normalize_whitespace q.title ∧
       r.description = orElse (normalize_whitespace q.description) (normalize_whitespace q.title) ∧
       r.updated_at = now₂) ∧
    (∃ r ∈ u₂, r.id = p2.id ∧ 1 ≤ r.duplicate_hint_count) := by
  constructor
  · simp only [processPosting] at h2
    cases hurl : normalize_url (noneIfEmpty (pyStrip (q.apply_url.getD []))) with
    | error e => rw [hurl] at h2; exact absurd h2 (by simp)
    | ok nu =>
      rw [hurl] at h2
      rw [Except.ok.injEq, Prod.mk.injEq] at h2
      obtain ⟨ht2, _⟩ := h2
      subst ht2
      obtain ⟨r0, hr0, hr0id, _, _⟩ := processPosting_ok_mem digest now₁ p tbl t₁ d₁ h1
      have hany : t₁.any (fun r => r.id = q.id) = true :=
        List.any_eq_true.mpr ⟨r0, hr0, decide_eq_true (by rw [hr0id, hqp])⟩
      refine ⟨upsertRow_length_of_any t₁ _ hany, ?_⟩
      obtain ⟨r, hr, c, hc⟩ := upsertRow_mem t₁ _
      exact ⟨r, hr, by rw [hc], by rw [hc], by rw [hc], by rw [hc]⟩
  · simp only [processPosting] at g1 g2
    cases hu1 : normalize_url (noneIfEmpty (pyStrip (p1.apply_url.getD []))) with
    | error e => rw [hu1] at g1; exact absurd g1 (by simp)
    | ok nu1 =>
      cases hu2 : normalize_url (noneIfEmpty (pyStrip (p2.apply_url.getD []))) with
      | error e => rw [hu2] at g2; exact absurd g2 (by simp)
      | ok nu2 =>
        rw [hu1] at g1
        rw [hu2] at g2
        rw [Except.ok.injEq, Prod.mk.injEq] at g1 g2
        obtain ⟨hg1, _⟩ := g1
        obtain ⟨hg2, _⟩ := g2
        subst hg1
        subst hg2
        have hnu : nu1 = nu2 := by
          rw [hu1, hu2] at hU
          exact Except.ok.inj hU
        obtain ⟨r1, hr1, c1, hc1⟩ := upsertRow_mem tbl' _
        obtain ⟨r2, hr2, c2, hc2⟩ := upsertRow_mem (upsertRow tbl' _) _
        refine ⟨r2, hr2, by rw [hc2], ?_⟩
        rw [hc2]
        show 1 ≤ (List.filter _ _).length
        refine List.length_pos_of_mem (List.mem_filter.mpr ⟨hr1, decide_eq_true ⟨?_, ?_⟩⟩)
        · rw [hc1]
          show orElse (p1.dedup_key.getD []) _ = orElse (p2.dedup_key.getD []) _
          rw [hk1, hk2]
          show orElse [] _ = orElse [] _
          rw [orElse_nil, orElse_nil, hT, hC, hL, hnu]
        · rw [hc1]
          show p1.id ≠ p2.id
          exact hne

/-- First upsert of identity `a`, for the C6 witness. -/
def rowA1 : PostingRow :=
  { id := "a".toList, title := "T1".toList, description := "T1".toList,
    company := none, location := none, apply_url := none, source_id := none,
    external_id := none, normalized_title := "t1".toList, normalized_company := [],
    normalized_location := [], normalized_url := [], dedup_key := "t1|||".toList,
    duplicate_hint_count := 0, created_at := 1, updated_at := 1 }

/-- Second upsert of identity `a` (fields updated, `created_at` kept). -/
def rowA2 : PostingRow :=
  { id := "a".toList, title := "T2".toList, description := "T2".toList,
    company := none, location := none, apply_url := none, source_id := none,
    external_id := none, normalized_title := "t2".toList, normalized_company := [],
    normalized_location := [], normalized_url := [], dedup_key := "t2|||".toList,
    duplicate_hint_count := 0, created_at := 1, updated_at := 2 }

/-- Identity `x` with title `Same`, for the C6 witness. -/
def rowX : PostingRow :=
  { id := "x".toList, title := "Same".toList, description := "Same".toList,
    company := none, location := none, apply_url := none, source_id := none,
    external_id := none, normalized_title := "same".toList, normalized_company := [],
    normalized_location := [], normalized_url := [], dedup_key := "same|||".toList,
    duplicate_hint_count := 0, created_at := 3, updated_at := 3 }

/-- Identity `y` with the same normalized fields as `rowX`: stored with
`duplicate_hint_count = 1`. -/
def rowY : PostingRow :=
  { id := "y".toList, title := "Same".toList, description := "Same".toList,
    company := none, location := none, apply_url := none, source_id := none,
    external_id := none, normalized_title := "same".toList, normalized_company := [],
    normalized_location := [], normalized_url := [], dedup_key := "same|||".toList,
    duplicate_hint_count := 1, created_at := 4, updated_at := 4 }

/-- Witness for C6 at concrete postings. -/
theorem upsert_identity_and_duplicate_hint_witness :
    (processPosting id 1 { id := "a".toList, title := "T1".toList } [] = .ok ([rowA1], false) ∧
     processPosting id 2 { id := "a".toList, title := "T2".toList } [rowA1] = .ok ([rowA2], false) ∧
     processPosting id 3 { id := "x".toList, title := "Same".toList } [] = .ok ([rowX], false) ∧
     processPosting id 4 { id := "y".toList, title := "Same".toList } [rowX] = .ok ([rowX, rowY], true)) ∧
    (([rowA2] : List PostingRow).length = ([rowA1] : List PostingRow).length ∧
     ∃ r ∈ [rowA2], r.id = "a".toList ∧ r.title = normalize_whitespace ("T2".toList) ∧
       r.description = orElse (normalize_whitespace ([] : Str)) (normalize_whitespace ("T2".toList)) ∧
       r.updated_at = 2) ∧
    (∃ r ∈ [rowX, rowY], r.id = "y".toList ∧ 1 ≤ r.duplicate_hint_count) := by
  have e1 : processPosting id 1 { id := "a".toList, title := "T1".toList } [] = .ok ([rowA1], false) := by
    simp [processPosting, upsertRow, dedupKeyOfNormalized, normalize_url, normalize_text,
      normalize_whitespace, pySplit, wordsBy_cons, wordsBy_nil, joinWords, lowerStr,
      subBadRuns_cons, subBadRuns_nil, isBad, isKept, pyIsSpace, pyStrip, orElse,
      noneIfEmpty, rowA1]
  have e2 : processPosting id 2 { id := "a".toList, title := "T2".toList } [rowA1] = .ok ([rowA2], false) := by
    simp [processPosting, upsertRow, dedupKeyOfNormalized, normalize_url, normalize_text,
      normalize_whitespace, pySplit, wordsBy_cons, wordsBy_nil, joinWords, lowerStr,
      subBadRuns_cons, subBadRuns_nil, isBad, isKept, pyIsSpace, pyStrip, orElse,
      noneIfEmpty, rowA1, rowA2]
  have e3 : processPosting id 3 { id := "x".toList, title := "Same".toList } [] = .ok ([rowX], false) := by
    simp [processPosting, upsertRow, dedupKeyOfNormalized, normalize_url, normalize_text,
      normalize_whitespace, pySplit, wordsBy_cons, wordsBy_nil, joinWords, lowerStr,
      subBadRuns_cons, subBadRuns_nil, isBad, isKept, pyIsSpace, pyStrip, orElse,
      noneIfEmpty, rowX]
  have e4 : processPosting id 4 { id := "y".toList, title := "Same".toList } [rowX] = .ok ([rowX, rowY], true) := by
    simp [processPosting, upsertRow, dedupKeyOfNormalized, normalize_url, normalize_text,
      normalize_whitespace, pySplit, wordsBy_cons, wordsBy_nil, joinWords, lowerStr,
      subBadRuns_cons, subBadRuns_nil, isBad, isKept, pyIsSpace, pyStrip, orElse,
      noneIfEmpty, rowX, rowY]
  have hmain := upsert_identity_and_duplicate_hint id []
    { id := "a".toList, title := "T1".toList } { id := "a".toList, title := "T2".toList }
    1 2 [rowA1] [rowA2] false false rfl e1 e2
    [] { id := "x".toList, title := "Same".toList } { id := "y".toList, title := "Same".toList }
    3 4 [rowX] [rowX, rowY] false true (by simp) rfl rfl rfl rfl rfl rfl e3 e4
  exact ⟨⟨e1, e2, e3, e4⟩, hmain.1, hmain.2⟩

/-- Witness for the amended C4 at a concrete source 120 seconds into backoff. -/
theorem scan_skip_in_backoff_witness :
    ({ sampleSource with next_eligible_scan_at := some (120 : ℚ) } : JobSourceRow).next_eligible_scan_at
      = some (120 : ℚ) ∧ (0 : ℚ) < 120 ∧
    (scan_source id ⟨{ sampleSource with next_eligible_scan_at := some (120 : ℚ) }, [], []⟩
      (.ok []) .manual true 0 [] 0).2.status = .skipped ∧
    0 < (scan_source id ⟨{ sampleSource with next_eligible_scan_at := some (120 : ℚ) }, [], []⟩
      (.ok []) .manual true 0 [] 0).2.backoff_seconds := by
  have h := scan_skip_in_backoff id
    ⟨{ sampleSource with next_eligible_scan_at := some (120 : ℚ) }, [], []⟩
    (.ok []) .manual 0 [] 0 120 rfl (by norm_num)
  exact ⟨rfl, by norm_num, h.1, h.2.2.2.2.2.2.2.2.1 (by norm_num)⟩

/-- C1: every recommendation produced by `rank_postings` scores its posting as
`max(0, 0.55*titleOverlap + 0.35*descriptionOverlap + 0.10*keywordOverlap +
preferenceBonus + freshnessBonus − duplicatePenalty)`, with `titleOverlap =
|resumeTokens ∩ titleTokens| / |titleTokens|` (0 when `titleTokens` is empty)
and description/keyword overlaps by the same formula over the description
tokens and the union of title+description+company tokens respectively. -/
theorem rank_postings_final_score
    (now : Time) (resume_text : Str) (postings : List JobPosting)
    (pk pl pc : List Str) (ro : Bool) (r : RankedRecommendation)
    (hr : r ∈ rank_postings now resume_text postings pk pl pc ro) :
    ∃ p ∈ postings,
      r = scorePosting now (tokenize resume_text) (tokenize (joinWords pk))
            ((pl.map normalize_text).toFinset) ((pc.map normalize_text).toFinset) ro p ∧
      r.score = max 0
        (55 / 100 * (if tokenize p.title = ∅ then 0
            else ((tokenize resume_text ∩ tokenize p.title).card : ℚ) / ((tokenize p.title).card : ℚ))
         + 35 / 100 * (if tokenize p.description = ∅ then 0
            else ((tokenize resume_text ∩ tokenize p.description).card : ℚ) / ((tokenize p.description).card : ℚ))
         + 10 / 100 * (if tokenize p.title ∪ tokenize p.description ∪ tokenize (p.company.getD []) = ∅ then 0
            else ((tokenize (joinWords pk) ∩ (tokenize p.title ∪ tokenize p.description ∪ tokenize (p.company.getD []))).card : ℚ)
              / ((tokenize p.title ∪ tokenize p.description ∪ tokenize (p.company.getD [])).card : ℚ))
         + r.score_breakdown.preference_bonus
         + r.score_breakdown.freshness_bonus
         - r.score_breakdown.duplicate_penalty) := by
  unfold rank_postings at hr
  have hr' := (List.Perm.mem_iff (List.mergeSort_perm _ _)).mp hr
  obtain ⟨p, hp, heq⟩ := List.mem_map.mp hr'
  refine ⟨p, hp, heq.symm, ?_⟩
  subst heq
  exact (max_comm _ _)

/-- A one-posting input for the ranking witnesses. -/
def tinyPosting : JobPosting := { id := "j".toList, title := "x".toList }

/-- The recommendation `rank_postings` produces for `tinyPosting` against an
empty resume with no preferences. -/
def tinyRanked : RankedRecommendation :=
  { id := "j".toList, title := "x".toList, company := none, location := none,
    apply_url := none, score := 0, matched_terms := [],
    score_breakdown := ⟨0, 0, 0, 0, 0, 0, 0⟩ }

/-- Witness for C1 at a concrete one-posting ranking run. -/
theorem rank_postings_final_score_witness :
    tinyRanked ∈ rank_postings 0 [] [tinyPosting] [] [] [] false ∧
    ∃ p ∈ [tinyPosting],
      tinyRanked = scorePosting 0 (tokenize []) (tokenize (joinWords []))
            (([].map normalize_text).toFinset) (([].map normalize_text).toFinset) false p ∧
      tinyRanked.score = max 0
        (55 / 100 * (if tokenize p.title = ∅ then 0
            else ((tokenize [] ∩ tokenize p.title).card : ℚ) / ((tokenize p.title).card : ℚ))
         + 35 / 100 * (if tokenize p.description = ∅ then 0
            else ((tokenize [] ∩ tokenize p.description).card : ℚ) / ((tokenize p.description).card : ℚ))
         + 10 / 100 * (if tokenize p.title ∪ tokenize p.description ∪ tokenize (p.company.getD []) = ∅ then 0
            else ((tokenize (joinWords []) ∩ (tokenize p.title ∪ tokenize p.description ∪ tokenize (p.company.getD []))).card : ℚ)
              / ((tokenize p.title ∪ tokenize p.description ∪ tokenize (p.company.getD [])).card : ℚ))
         + tinyRanked.score_breakdown.preference_bonus
         + tinyRanked.score_breakdown.freshness_bonus
         - tinyRanked.score_breakdown.duplicate_penalty) := by
  have hmem : tinyRanked ∈ rank_postings 0 [] [tinyPosting] [] [] [] false := by
    simp [rank_postings, scorePosting, tinyPosting, tinyRanked, tokenize, _token_overlap,
      _freshness_bonus, strContains, strStartsWith, normalize_text, normalize_whitespace,
      pySplit, wordsBy_cons, wordsBy_nil, joinWords, lowerStr, subBadRuns_cons, subBadRuns_nil,
      isBad, isKept, pyIsSpace, pyStrip, stripChars, isTokenPunct]
    norm_num
  exact ⟨hmem, rank_postings_final_score 0 [] [tinyPosting] [] [] [] false tinyRanked hmem⟩

/-- C7 (amended): with `remote_only=true`, for two postings identical except
in location, where the first carries the remote signal (the substring
`"remote"` in its normalized location/title/description — the code tests a
substring, not a token) and the second does not, and neither normalized
location earns the preferred-location bonus, if the second posting's weighted
sum is ≥ 0 before clamping then the posting without the signal scores exactly
0.13 lower — hence strictly lower with a difference ≥ 0.13.  (Unconditionally,
the claim fails: clamping at zero can shrink the gap below 0.13, see the
counterexample.) -/
theorem remote_penalty_gap
    (now : Time) (rt kw plN pcN : Finset Str) (pA pB : JobPosting)
    (hT : pA.title = pB.title) (hD : pA.description = pB.description)
    (hC : pA.company = pB.company) (hUp : pA.updated_at = pB.updated_at)
    (hdup : pA.duplicate_hint_count = pB.duplicate_hint_count)
    (hsigA : strContains ("remote".toList)
      (normalize_text ((pA.location.getD []) ++ ' ' :: (pA.title ++ ' ' :: pA.description))) = true)
    (hsigB : strContains ("remote".toList)
      (normalize_text ((pB.location.getD []) ++ ' ' :: (pB.title ++ ' ' :: pB.description))) = false)
    (hlocA : ¬(normalize_text (pA.location.getD []) ≠ [] ∧
      normalize_text (pA.location.getD []) ∈ plN))
    (hlocB : ¬(normalize_text (pB.location.getD []) ≠ [] ∧
      normalize_text (pB.location.getD []) ∈ plN))
    (hnc : 0 ≤ 55 / 100 * _token_overlap rt (tokenize pB.title)
      + 35 / 100 * _token_overlap rt (tokenize pB.description)
      + 10 / 100 * _token_overlap kw
          (tokenize pB.title ∪ tokenize pB.description ∪ tokenize (pB.company.getD []))
      + ((if normalize_text (pB.company.getD []) ≠ [] ∧
            normalize_text (pB.company.getD []) ∈ pcN then (8 : ℚ) / 100 else 0)
         + 0 + (-5 / 100))
      + _freshness_bonus now pB.updated_at
      - min (2 / 100 * (pB.duplicate_hint_count : ℚ)) (8 / 100)) :
    (scorePosting now rt kw plN pcN true pB).score + 13 / 100
      = (scorePosting now rt kw plN pcN true pA).score ∧
    (scorePosting now rt kw plN pcN true pB).score
      < (scorePosting now rt kw plN pcN true pA).score := by
  have hA : (scorePosting now rt kw plN pcN true pA).score
      = max (55 / 100 * _token_overlap rt (tokenize pB.title)
        + 35 / 100 * _token_overlap rt (tokenize pB.description)
        + 10 / 100 * _token_overlap kw
            (tokenize pB.title ∪ tokenize pB.description ∪ tokenize (pB.company.getD []))
        + ((if normalize_text (pB.company.getD []) ≠ [] ∧
              normalize_text (pB.company.getD []) ∈ pcN then (8 : ℚ) / 100 else 0)
           + 0 + (8 / 100))
        + _freshness_bonus now pB.updated_at
        - min (2 / 100 * (pB.duplicate_hint_count : ℚ)) (8 / 100)) 0 := by
    simp only [scorePosting]
    rw [hsigA, if_neg hlocA, hT, hD, hC, hUp, hdup]
    simp
  have hB : (scorePosting now rt kw plN pcN true pB).score
      = max (55 / 100 * _token_overlap rt (tokenize pB.title)
        + 35 / 100 * _token_overlap rt (tokenize pB.description)
        + 10 / 100 * _token_overlap kw
            (tokenize pB.title ∪ tokenize pB.description ∪ tokenize (pB.company.getD []))
        + ((if normalize_text (pB.company.getD []) ≠ [] ∧
              normalize_text (pB.company.getD []) ∈ pcN then (8 : ℚ) / 100 else 0)
           + 0 + (-5 / 100))
        + _freshness_bonus now pB.updated_at
        - min (2 / 100 * (pB.duplicate_hint_count : ℚ)) (8 / 100)) 0 := by
    simp only [scorePosting]
    rw [hsigB, if_neg hlocB]
    simp
  rw [hA, hB]
  rw [max_eq_left hnc]
  have h13 : 0 ≤ 55 / 100 * _token_overlap rt (tokenize pB.title)
      + 35 / 100 * _token_overlap rt (tokenize pB.description)
      + 10 / 100 * _token_overlap kw
          (tokenize pB.title ∪ tokenize pB.description ∪ tokenize (pB.company.getD []))
      + ((if normalize_text (pB.company.getD []) ≠ [] ∧
            normalize_text (pB.company.getD []) ∈ pcN then (8 : ℚ) / 100 else 0)
         + 0 + (8 / 100))
      + _freshness_bonus now pB.updated_at
      - min (2 / 100 * (pB.duplicate_hint_count : ℚ)) (8 / 100) := by linarith
  rw [max_eq_left h13]
  constructor
  · ring
  · linarith

/-- A posting whose location carries the remote signal. -/
def postRemote : JobPosting :=
  { id := "r".toList, title := "x".toList, location := some ("remote".toList) }

/-- The same posting except for an on-site location. -/
def postOnsite : JobPosting :=
  { id := "o".toList, title := "x".toList, location := some ("onsite".toList) }

/-- The recommendation produced for `postRemote` against an empty resume with
`remote_only=true`: score `0.08`. -/
def recRemote : RankedRecommendation :=
  { id := "r".toList, title := "x".toList, company := none,
    location := some ("remote".toList), apply_url := none, score := 2 / 25,
    matched_terms := [], score_breakdown := ⟨0, 0, 0, 2 / 25, 0, 0, 2 / 25⟩ }

/-- The recommendation produced for `postOnsite` in the same run: clamped to
score `0`. -/
def recOnsite : RankedRecommendation :=
  { id := "o".toList, title := "x".toList, company := none,
    location := some ("onsite".toList), apply_url := none, score := 0,
    matched_terms := [], score_breakdown := ⟨0, 0, 0, -1 / 20, 0, 0, 0⟩ }

/-- Counterexample for C7 as stated: with an empty resume and `remote_only=true`,
two postings identical except in location (`"remote"` vs `"onsite"`) score
`0.08` and `0` — the non-remote posting is strictly lower, but the difference
is `0.08 < 0.13`, because the non-remote score was clamped at zero. -/
theorem remote_penalty_gap_counterexample :
    rank_postings 0 [] [postRemote, postOnsite] [] [] [] true = [recRemote, recOnsite] ∧
    recOnsite.score < recRemote.score ∧
    ¬ (13 / 100 ≤ recRemote.score - recOnsite.score) := by
  refine ⟨?_, by norm_num [recRemote, recOnsite], by norm_num [recRemote, recOnsite]⟩
  simp [rank_postings, scorePosting, postRemote, postOnsite, recRemote, recOnsite,
    tokenize, _token_overlap, _freshness_bonus, strContains, strStartsWith,
    normalize_text, normalize_whitespace, pySplit, wordsBy_cons, wordsBy_nil, joinWords,
    lowerStr, subBadRuns_cons, subBadRuns_nil, isBad, isKept, pyIsSpace, pyStrip,
    stripChars, isTokenPunct, List.mergeSort, List.merge]
  norm_num

/-- Witness for the amended C7: against a resume matching the shared title
(so nothing clamps), the on-site posting scores exactly 0.13 below the remote
one. -/
theorem remote_penalty_gap_witness :
    (scorePosting 0 (tokenize ("x".toList)) ∅ ∅ ∅ true postOnsite).score + 13 / 100
      = (scorePosting 0 (tokenize ("x".toList)) ∅ ∅ ∅ true postRemote).score ∧
    (scorePosting 0 (tokenize ("x".toList)) ∅ ∅ ∅ true postOnsite).score
      < (scorePosting 0 (tokenize ("x".toList)) ∅ ∅ ∅ true postRemote).score :=
  remote_penalty_gap 0 (tokenize ("x".toList)) ∅ ∅ ∅ postRemote postOnsite
    rfl rfl rfl rfl rfl
    (by simp [postRemote, strContains, strStartsWith, normalize_text, normalize_whitespace,
      pySplit, wordsBy_cons, wordsBy_nil, joinWords, lowerStr, subBadRuns_cons,
      subBadRuns_nil, isBad, isKept, pyIsSpace])
    (by simp [postOnsite, strContains, strStartsWith, normalize_text, normalize_whitespace,
      pySplit, wordsBy_cons, wordsBy_nil, joinWords, lowerStr, subBadRuns_cons,
      subBadRuns_nil, isBad, isKept, pyIsSpace])
    (by simp)
    (by simp)
    (by
      simp [postOnsite, tokenize, _token_overlap, _freshness_bonus, normalize_text,
        normalize_whitespace, pySplit, wordsBy_cons, wordsBy_nil, joinWords, lowerStr,
        subBadRuns_cons, subBadRuns_nil, isBad, isKept, pyIsSpace, pyStrip, stripChars,
        isTokenPunct]
      norm_num)

/-! ## Text normalization: canonical form and insensitivity (for C5/C8)

`normalize_text` is shown equal to a canonical form — the lower-cased maximal
alphanumeric runs joined by single spaces — from which case- and
punctuation-insensitivity follow. -/

/-- `Char.ofNat` round-trips on scalar values below the surrogate range. -/
theorem toNat_ofNat_lt (n : ℕ) (h : n < 55296) : (Char.ofNat n).toNat = n := by
  unfold Char.ofNat
  rw [dif_pos (by unfold Nat.isValidChar; omega)]
  simp [Char.toNat, Char.ofNatAux, UInt32.toNat, BitVec.toNat_ofNat]

/-- Lower-casing does not change whether a character is whitespace. -/
theorem pyIsSpace_toLower (c : Char) : pyIsSpace (Char.toLower c) = pyIsSpace c := by
  have hshow : Char.toLower c =
      if c.toNat ≥ 65 ∧ c.toNat ≤ 90 then Char.ofNat (c.toNat + 32) else c := rfl
  rw [hshow]
  by_cases h : c.toNat ≥ 65 ∧ c.toNat ≤ 90
  · rw [if_pos h]
    have hof : (Char.ofNat (c.toNat + 32)).toNat = c.toNat + 32 :=
      toNat_ofNat_lt _ (by omega)
    have hs1 : pyIsSpace (Char.ofNat (c.toNat + 32)) = false := by
      unfold pyIsSpace
      simp only [Bool.or_eq_false_iff, decide_eq_false_iff_not]
      and_intros <;>
        (intro he; have h2 := congrArg Char.toNat he; rw [hof] at h2;
         simp only [show (' ' : Char).toNat = 32 from rfl,
           show ('\t' : Char).toNat = 9 from rfl,
           show ('\n' : Char).toNat = 10 from rfl,
           show ('\x0d' : Char).toNat = 13 from rfl,
           show ('\x0b' : Char).toNat = 11 from rfl,
           show ('\x0c' : Char).toNat = 12 from rfl] at h2; omega)
    have hs2 : pyIsSpace c = false := by
      unfold pyIsSpace
      simp only [Bool.or_eq_false_iff, decide_eq_false_iff_not]
      and_intros <;>
        (intro he; subst he; exact absurd h (by decide))
    rw [hs1, hs2]
  · rw [if_neg h]

/-- Alphanumeric characters are not whitespace. -/
theorem kept_not_space {c : Char} (h : isKept c = true) : pyIsSpace c = false := by
  unfold pyIsSpace
  simp only [Bool.or_eq_false_iff, decide_eq_false_iff_not]
  and_intros <;>
    (intro he; subst he; exact absurd h (by decide))

/-- A character not matched by `[^a-z0-9\s]` is alphanumeric or whitespace. -/
theorem kept_or_space_of_not_bad {c : Char} (h : isBad c = false) :
    isKept c = true ∨ pyIsSpace c = true := by
  unfold isBad at h
  cases hk : isKept c
  · cases hs : pyIsSpace c
    · rw [hk, hs] at h
      exact absurd h (by decide)
    · exact Or.inr rfl
  · exact Or.inl rfl

/-- An alphanumeric character is not matched by `[^a-z0-9\s]`. -/
theorem not_bad_of_kept {c : Char} (h : isKept c = true) : isBad c = false := by
  unfold isBad
  rw [h]
  rfl

/-- A whitespace character is not matched by `[^a-z0-9\s]`. -/
theorem not_bad_of_space {c : Char} (h : pyIsSpace c = true) : isBad c = false := by
  unfold isBad
  rw [h, Bool.or_true]
  rfl

/-- A bad (replaced) character is not alphanumeric. -/
theorem not_kept_of_bad {c : Char} (h : isBad c = true) : isKept c = false := by
  cases hk : isKept c
  · rfl
  · rw [not_bad_of_kept hk] at h
    exact absurd h (by decide)

/-- A bad (replaced) character is not whitespace. -/
theorem not_space_of_bad {c : Char} (h : isBad c = true) : pyIsSpace c = false := by
  cases hs : pyIsSpace c
  · rfl
  · rw [not_bad_of_space hs] at h
    exact absurd h (by decide)

/-- `takeWhile` stops at (and before) a separator appended after `xs`. -/
theorem takeWhile_append_sep (q : Char → Bool) (m : Char) (hm : q m = false) :
    ∀ (xs ys : Str), (xs ++ m :: ys).takeWhile q = xs.takeWhile q := by
  intro xs ys
  induction xs with
  | nil => simp [List.takeWhile_cons, hm]
  | cons c xs' ih =>
    rw [List.cons_append, List.takeWhile_cons, List.takeWhile_cons]
    by_cases hc : q c
    · rw [if_pos hc, if_pos hc, ih]
    · rw [if_neg hc, if_neg hc]

/-- `dropWhile` keeps everything from an appended separator on. -/
theorem dropWhile_append_sep (q : Char → Bool) (m : Char) (hm : q m = false) :
    ∀ (xs ys : Str), (xs ++ m :: ys).dropWhile q = xs.dropWhile q ++ m :: ys := by
  intro xs ys
  induction xs with
  | nil => simp [List.dropWhile_cons, hm]
  | cons c xs' ih =>
    rw [List.cons_append, List.dropWhile_cons, List.dropWhile_cons]
    by_cases hc : q c
    · rw [if_pos hc, if_pos hc, ih]
    · rw [if_neg hc, if_neg hc, List.cons_append]

/-- Fuelled form of the run-splitting law: splitting a list at an interposed
separator splits its `q`-runs. -/
theorem wordsBy_append_sep_aux (q : Char → Bool) (m : Char) (hm : q m = false) :
    ∀ (n : ℕ) (xs ys : Str), xs.length ≤ n →
      wordsBy q (xs ++ m :: ys) = wordsBy q xs ++ wordsBy q ys := by
  intro n
  induction n with
  | zero =>
    intro xs ys hlen
    rw [List.length_eq_zero.mp (Nat.le_zero.mp hlen)]
    rw [List.nil_append, wordsBy_cons, wordsBy_nil, if_neg (by rw [hm]; exact Bool.false_ne_true)]
    rfl
  | succ n ih =>
    intro xs ys hlen
    cases xs with
    | nil =>
      rw [List.nil_append, wordsBy_cons, wordsBy_nil, if_neg (by rw [hm]; exact Bool.false_ne_true)]
      rfl
    | cons c xs' =>
      rw [List.cons_append, wordsBy_cons, wordsBy_cons]
      by_cases hc : q c
      · rw [if_pos hc, if_pos hc]
        rw [takeWhile_append_sep q m hm, dropWhile_append_sep q m hm]
        rw [ih (xs'.dropWhile q) ys
          (le_trans (length_dropWhile_le q xs') (Nat.le_of_succ_le_succ hlen))]
        rfl
      · rw [if_neg hc, if_neg hc]
        exact ih xs' ys (Nat.le_of_succ_le_succ hlen)

/-- Splitting at an interposed non-`q` separator splits the `q`-runs. -/
theorem wordsBy_append_sep (q : Char → Bool) (m : Char) (hm : q m = false)
    (xs ys : Str) : wordsBy q (xs ++ m :: ys) = wordsBy q xs ++ wordsBy q ys :=
  wordsBy_append_sep_aux q m hm xs.length xs ys le_rfl

/-- Dropping a prefix of separators does not change the `q`-runs. -/
theorem wordsBy_dropWhile_subset (q r : Char → Bool)
    (h : ∀ c, r c = true → q c = false) :
    ∀ l : Str, wordsBy q (l.dropWhile r) = wordsBy q l := by
  intro l
  induction l with
  | nil => rfl
  | cons c tl ih =>
    rw [List.dropWhile_cons]
    by_cases hc : r c
    · rw [if_pos hc, ih, wordsBy_cons,
        if_neg (by rw [h c hc]; exact Bool.false_ne_true)]
    · rw [if_neg hc]

/-- Whitespace characters are not alphanumeric. -/
theorem space_not_kept {c : Char} (h : pyIsSpace c = true) : isKept c = false := by
  cases hk : isKept c
  · rfl
  · rw [kept_not_space hk] at h
    exact absurd h (by decide)

/-- In the substituted string, the leading non-space run is exactly the
leading alphanumeric run of the original. -/
theorem takeWhile_subBadRuns (v : Str) :
    (subBadRuns v).takeWhile (fun c => !pyIsSpace c) = v.takeWhile isKept := by
  induction v with
  | nil => rw [subBadRuns_nil]; rfl
  | cons d w ih =>
    rw [subBadRuns_cons]
    by_cases hb : isBad d
    · rw [if_pos hb, List.takeWhile_cons, List.takeWhile_cons]
      rw [if_neg (by decide), if_neg (by rw [not_kept_of_bad hb]; exact Bool.false_ne_true)]
    · rw [if_neg hb]
      rcases kept_or_space_of_not_bad (Bool.of_not_eq_true hb) with hk | hs
      · rw [List.takeWhile_cons, List.takeWhile_cons,
          if_pos (by rw [kept_not_space hk]; rfl), if_pos hk, ih]
      · rw [List.takeWhile_cons, List.takeWhile_cons,
          if_neg (by rw [hs]; exact Bool.false_ne_true),
          if_neg (by rw [space_not_kept hs]; exact Bool.false_ne_true)]

/-- Dropping the leading non-space run of the substituted string is the
substitution of the original with its leading alphanumeric run dropped. -/
theorem dropWhile_subBadRuns (v : Str) :
    (subBadRuns v).dropWhile (fun c => !pyIsSpace c) = subBadRuns (v.dropWhile isKept) := by
  induction v with
  | nil => simp [subBadRuns_nil]
  | cons d w ih =>
    rw [subBadRuns_cons]
    by_cases hb : isBad d
    · rw [if_pos hb, List.dropWhile_cons, List.dropWhile_cons,
        if_neg (by decide), if_neg (by rw [not_kept_of_bad hb]; exact Bool.false_ne_true),
        subBadRuns_cons, if_pos hb]
    · rw [if_neg hb]
      rcases kept_or_space_of_not_bad (Bool.of_not_eq_true hb) with hk | hs
      · rw [List.dropWhile_cons, List.dropWhile_cons,
          if_pos (by rw [kept_not_space hk]; rfl), if_pos hk, ih]
      · rw [List.dropWhile_cons, List.dropWhile_cons,
          if_neg (by rw [hs]; exact Bool.false_ne_true),
          if_neg (by rw [space_not_kept hs]; exact Bool.false_ne_true),
          subBadRuns_cons, if_neg hb]

/-- Fuelled main characterization: splitting the substituted string on
whitespace yields exactly the maximal alphanumeric runs of the original. -/
theorem wordsBy_subBadRuns_aux :
    ∀ (n : ℕ) (u : Str), u.length ≤ n →
      wordsBy (fun c => !pyIsSpace c) (subBadRuns u) = wordsBy isKept u := by
  intro n
  induction n with
  | zero =>
    intro u hlen
    rw [List.length_eq_zero.mp (Nat.le_zero.mp hlen)]
    rw [subBadRuns_nil, wordsBy_nil, wordsBy_nil]
  | succ n ih =>
    intro u hlen
    cases u with
    | nil => rw [subBadRuns_nil, wordsBy_nil, wordsBy_nil]
    | cons c rest =>
      rw [subBadRuns_cons]
      by_cases hb : isBad c
      · rw [if_pos hb, wordsBy_cons, if_neg (by decide)]
        rw [ih (rest.dropWhile isBad)
          (le_trans (length_dropWhile_le isBad rest) (Nat.le_of_succ_le_succ hlen))]
        rw [wordsBy_dropWhile_subset isKept isBad (fun d hd => not_kept_of_bad hd) rest]
        rw [wordsBy_cons, if_neg (by rw [not_kept_of_bad hb]; exact Bool.false_ne_true)]
      · rw [if_neg hb]
        rcases kept_or_space_of_not_bad (Bool.of_not_eq_true hb) with hk | hs
        · rw [wordsBy_cons, wordsBy_cons, if_pos (by rw [kept_not_space hk]; rfl), if_pos hk]
          rw [takeWhile_subBadRuns, dropWhile_subBadRuns]
          rw [ih (rest.dropWhile isKept)
            (le_trans (length_dropWhile_le isKept rest) (Nat.le_of_succ_le_succ hlen))]
        · rw [wordsBy_cons, wordsBy_cons,
            if_neg (by rw [hs]; exact Bool.false_ne_true),
            if_neg (by rw [space_not_kept hs]; exact Bool.false_ne_true)]
          exact ih rest (Nat.le_of_succ_le_succ hlen)

/-- Splitting the substituted string on whitespace yields exactly the maximal
alphanumeric runs of the original. -/
theorem wordsBy_subBadRuns (u : Str) :
    wordsBy (fun c => !pyIsSpace c) (subBadRuns u) = wordsBy isKept u :=
  wordsBy_subBadRuns_aux u.length u le_rfl

/-- Fuelled transport of `wordsBy` along a character map that preserves the
run predicate. -/
theorem wordsBy_map_aux (f : Char → Char) (p : Char → Bool)
    (hp : ∀ c, p (f c) = p c) :
    ∀ (n : ℕ) (l : Str), l.length ≤ n →
      wordsBy p (l.map f) = (wordsBy p l).map (List.map f) := by
  intro n
  induction n with
  | zero =>
    intro l hlen
    rw [List.length_eq_zero.mp (Nat.le_zero.mp hlen)]
    rw [List.map_nil, wordsBy_nil, List.map_nil]
  | succ n ih =>
    intro l hlen
    cases l with
    | nil => rw [List.map_nil, wordsBy_nil, List.map_nil]
    | cons c cs =>
      rw [List.map_cons, wordsBy_cons, wordsBy_cons]
      by_cases hc : p c
      · rw [if_pos (by rw [hp c]; exact hc), if_pos hc]
        rw [List.takeWhile_map, List.dropWhile_map,
          show (p ∘ f) = p from funext hp]
        rw [ih (cs.dropWhile p)
          (le_trans (length_dropWhile_le p cs) (Nat.le_of_succ_le_succ hlen))]
        rw [List.map_cons, List.map_cons]
      · rw [if_neg (by rw [hp c]; exact hc), if_neg hc]
        exact ih cs (Nat.le_of_succ_le_succ hlen)

/-- Transport of `wordsBy` along a predicate-preserving character map. -/
theorem wordsBy_map (f : Char → Char) (p : Char → Bool)
    (hp : ∀ c, p (f c) = p c) (l : Str) :
    wordsBy p (l.map f) = (wordsBy p l).map (List.map f) :=
  wordsBy_map_aux f p hp l.length l le_rfl

/-- A space-fixing character map distributes over `" ".join`. -/
theorem joinWords_map (f : Char → Char) (hf : f ' ' = ' ') :
    ∀ ws : List Str, (joinWords ws).map f = joinWords (ws.map (List.map f)) := by
  intro ws
  induction ws with
  | nil => rfl
  | cons w ws' ih =>
    cases ws' with
    | nil => rfl
    | cons x xs =>
      show (w ++ ' ' :: joinWords (x :: xs)).map f = _
      rw [List.map_append, List.map_cons, hf, ih]
      rfl

/-- `q`-runs of a space-joined word list are the concatenated `q`-runs of the
words (for a predicate failing on the space separator). -/
theorem wordsBy_joinWords (q : Char → Bool) (hq : q ' ' = false) :
    ∀ ws : List Str, wordsBy q (joinWords ws) = (ws.map (wordsBy q)).flatten := by
  intro ws
  induction ws with
  | nil => show wordsBy q [] = _; rw [wordsBy_nil]; rfl
  | cons w ws' ih =>
    cases ws' with
    | nil =>
      show wordsBy q w = _
      rw [List.map_cons, List.map_nil, List.flatten_cons, List.flatten_nil, List.append_nil]
    | cons x xs =>
      show wordsBy q (w ++ ' ' :: joinWords (x :: xs)) = _
      rw [wordsBy_append_sep q ' ' hq, ih]
      rfl

/-- The head a `dropWhile` stops at fails the predicate. -/
theorem dropWhile_head_false (p : Char → Bool) :
    ∀ (l : Str) (m : Char) (ys : Str), l.dropWhile p = m :: ys → p m = false := by
  intro l
  induction l with
  | nil => intro m ys h; exact absurd h (by simp)
  | cons c cs ih =>
    intro m ys h
    rw [List.dropWhile_cons] at h
    by_cases hc : p c
    · rw [if_pos hc] at h
      exact ih m ys h
    · rw [if_neg hc] at h
      obtain ⟨h1, _⟩ := List.cons.injEq .. |>.mp h
      subst h1
      exact Bool.of_not_eq_true hc

/-- Fuelled refinement: splitting on the finer predicate `q` factors through
splitting on any coarser predicate `p ⊇ q`. -/
theorem wordsBy_refine_aux (q p : Char → Bool)
    (hqp : ∀ c, q c = true → p c = true) :
    ∀ (n : ℕ) (l : Str), l.length ≤ n →
      wordsBy q l = ((wordsBy p l).map (wordsBy q)).flatten := by
  intro n
  induction n with
  | zero =>
    intro l hlen
    rw [List.length_eq_zero.mp (Nat.le_zero.mp hlen)]
    rw [wordsBy_nil, wordsBy_nil]
    rfl
  | succ n ih =>
    intro l hlen
    cases l with
    | nil => rw [wordsBy_nil, wordsBy_nil]; rfl
    | cons c l' =>
      by_cases hp : p c
      · rw [wordsBy_cons p, if_pos hp, List.map_cons, List.flatten_cons]
        rw [← ih (l'.dropWhile p)
          (le_trans (length_dropWhile_le p l') (Nat.le_of_succ_le_succ hlen))]
        cases hdw : l'.dropWhile p with
        | nil =>
          rw [wordsBy_nil, List.append_nil]
          have hl' : l'.takeWhile p = l' := by
            have := l'.takeWhile_append_dropWhile p
            rw [hdw, List.append_nil] at this
            exact this
          rw [hl']
        | cons m ys =>
          have hm : p m = false := dropWhile_head_false p l' m ys hdw
          have hqm : q m = false := by
            cases hq : q m
            · rfl
            · rw [hqp m hq] at hm
              exact absurd hm (by decide)
          have hsplit : c :: l' = (c :: l'.takeWhile p) ++ m :: ys := by
            rw [List.cons_append]
            rw [show l'.takeWhile p ++ m :: ys = l' from by
              rw [← hdw]; exact l'.takeWhile_append_dropWhile p]
          rw [hsplit, wordsBy_append_sep q m hqm]
          rw [wordsBy_cons q m, if_neg (by rw [hqm]; exact Bool.false_ne_true)]
      · have hq : q c = false := by
          cases hqc : q c
          · rfl
          · rw [hqp c hqc] at hp
            exact absurd rfl hp
        rw [wordsBy_cons p, if_neg hp, wordsBy_cons q,
          if_neg (by rw [hq]; exact Bool.false_ne_true)]
        exact ih l' (Nat.le_of_succ_le_succ hlen)

/-- Refinement: `q`-runs factor through `p`-runs for `q ⊆ p`. -/
theorem wordsBy_refine (q p : Char → Bool)
    (hqp : ∀ c, q c = true → p c = true) (l : Str) :
    wordsBy q l = ((wordsBy p l).map (wordsBy q)).flatten :=
  wordsBy_refine_aux q p hqp l.length l le_rfl

/-- The canonical form of `normalize_text`: the lower-cased maximal
alphanumeric runs, joined by single spaces. -/
theorem normalize_text_eq_canon (s : Str) :
    normalize_text s = joinWords (wordsBy isKept (lowerStr s)) := by
  unfold normalize_text normalize_whitespace pySplit
  rw [wordsBy_subBadRuns]
  unfold lowerStr
  rw [joinWords_map Char.toLower (by decide)]
  rw [wordsBy_joinWords isKept (by decide)]
  rw [wordsBy_refine isKept (fun c => !pyIsSpace c)
    (fun c hc => by show (!pyIsSpace c) = true; rw [kept_not_space hc]; rfl)]
  rw [wordsBy_map Char.toLower (fun c => !pyIsSpace c)
    (fun c => by show (!pyIsSpace c.toLower) = (!pyIsSpace c); rw [pyIsSpace_toLower])]

/-- Two characters are interchangeable for `normalize_text` when they agree
after case folding, or both fold to non-alphanumerics (letter-case or
punctuation/separator differences). -/
def textEquivChar (a b : Char) : Prop :=
  Char.toLower a = Char.toLower b ∨
    (isKept (Char.toLower a) = false ∧ isKept (Char.toLower b) = false)

/-- Positionwise interchangeability after lowering. -/
def lowEquivChar (a b : Char) : Prop :=
  a = b ∨ (isKept a = false ∧ isKept b = false)

/-- Case folding maps `textEquivChar` to `lowEquivChar`. -/
theorem forall₂_low_of_textEquiv {s t : Str} (h : List.Forall₂ textEquivChar s t) :
    List.Forall₂ lowEquivChar (lowerStr s) (lowerStr t) := by
  induction h with
  | nil => exact List.Forall₂.nil
  | cons hab _ ih => exact List.Forall₂.cons hab ih

/-- Related strings have equal leading alphanumeric runs. -/
theorem takeWhile_isKept_equiv :
    ∀ {u v : Str}, List.Forall₂ lowEquivChar u v →
      u.takeWhile isKept = v.takeWhile isKept := by
  intro u v h
  induction h with
  | nil => rfl
  | @cons a b u' v' hab htail ih =>
    rcases hab with hab | ⟨ha, hb⟩
    · subst hab
      rw [List.takeWhile_cons, List.takeWhile_cons]
      by_cases hk : isKept a
      · rw [if_pos hk, if_pos hk, ih]
      · rw [if_neg hk, if_neg hk]
    · rw [List.takeWhile_cons, List.takeWhile_cons,
        if_neg (by rw [ha]; exact Bool.false_ne_true),
        if_neg (by rw [hb]; exact Bool.false_ne_true)]

/-- Relatedness survives dropping the leading alphanumeric runs. -/
theorem dropWhile_isKept_equiv :
    ∀ {u v : Str}, List.Forall₂ lowEquivChar u v →
      List.Forall₂ lowEquivChar (u.dropWhile isKept) (v.dropWhile isKept) := by
  intro u v h
  induction h with
  | nil => exact List.Forall₂.nil
  | @cons a b u' v' hab htail ih =>
    rcases hab with hab | ⟨ha, hb⟩
    · subst hab
      rw [List.dropWhile_cons, List.dropWhile_cons]
      by_cases hk : isKept a
      · rw [if_pos hk, if_pos hk]
        exact ih
      · rw [if_neg hk, if_neg hk]
        exact List.Forall₂.cons (Or.inl rfl) htail
    · rw [List.dropWhile_cons, List.dropWhile_cons,
        if_neg (by rw [ha]; exact Bool.false_ne_true),
        if_neg (by rw [hb]; exact Bool.false_ne_true)]
      exact List.Forall₂.cons (Or.inr ⟨ha, hb⟩) htail

/-- Related strings have the same alphanumeric runs (fuelled). -/
theorem wordsBy_isKept_equiv_aux :
    ∀ (n : ℕ) (u v : Str), u.length ≤ n → List.Forall₂ lowEquivChar u v →
      wordsBy isKept u = wordsBy isKept v := by
  intro n
  induction n with
  | zero =>
    intro u v hlen h
    rw [List.length_eq_zero.mp (Nat.le_zero.mp hlen)] at h ⊢
    cases h
    rfl
  | succ n ih =>
    intro u v hlen h
    cases h with
    | nil => rfl
    | @cons a b u' v' hab htail =>
      rcases hab with hab | ⟨ha, hb⟩
      · subst hab
        by_cases hk : isKept a
        · rw [wordsBy_cons, wordsBy_cons, if_pos hk, if_pos hk]
          rw [takeWhile_isKept_equiv htail]
          rw [ih (u'.dropWhile isKept) (v'.dropWhile isKept)
            (le_trans (length_dropWhile_le isKept u') (Nat.le_of_succ_le_succ hlen))
            (dropWhile_isKept_equiv htail)]
        · rw [wordsBy_cons, wordsBy_cons, if_neg hk, if_neg hk]
          exact ih u' v' (Nat.le_of_succ_le_succ hlen) htail
      · rw [wordsBy_cons, wordsBy_cons,
          if_neg (by rw [ha]; exact Bool.false_ne_true),
          if_neg (by rw [hb]; exact Bool.false_ne_true)]
        exact ih u' v' (Nat.le_of_succ_le_succ hlen) htail

/-- `normalize_text` is insensitive to positionwise letter-case and
punctuation differences. -/
theorem normalize_text_equiv {s t : Str} (h : List.Forall₂ textEquivChar s t) :
    normalize_text s = normalize_text t := by
  rw [normalize_text_eq_canon, normalize_text_eq_canon]
  rw [wordsBy_isKept_equiv_aux (lowerStr s).length (lowerStr s) (lowerStr t) le_rfl
    (forall₂_low_of_textEquiv h)]

/-! ## URL-variant insensitivity (for C5) and `normalize_url` failure (for C8) -/

/-- Characters safe in every URL position: no whitespace, no stripped bytes,
and none of `#`, `?`, `[`, `]`. -/
def urlPlainChar (c : Char) : Bool :=
  !pyIsSpace c && !isUnsafeUrlChar c && !(c = '#') && !(c = '?') &&
    !(c = '[') && !(c = ']')

/-- A URL all of whose characters are plain. -/
def urlPlain (u : Str) : Bool := u.all urlPlainChar

/-- A query/fragment suffix: plain and additionally colon-free (so it cannot
be mistaken for a scheme separator). -/
def fragPlain (f : Str) : Bool := f.all (fun c => urlPlainChar c && !(c = ':'))

/-- `dropWhile` is the identity when nothing satisfies the predicate. -/
theorem dropWhile_eq_self_of_none (p : Char → Bool) :
    ∀ l : Str, (∀ c ∈ l, p c = false) → l.dropWhile p = l := by
  intro l h
  cases l with
  | nil => rfl
  | cons c cs =>
    rw [List.dropWhile_cons,
      if_neg (by rw [h c (List.mem_cons_self c cs)]; exact Bool.false_ne_true)]

/-- `str.strip()` is the identity on whitespace-free strings. -/
theorem pyStrip_eq_self (l : Str) (h : ∀ c ∈ l, pyIsSpace c = false) :
    pyStrip l = l := by
  unfold pyStrip
  rw [dropWhile_eq_self_of_none pyIsSpace l h,
    dropWhile_eq_self_of_none pyIsSpace l.reverse
      (fun c hc => h c (List.mem_reverse.mp hc)),
    List.reverse_reverse]

/-- Tab/CR/LF removal is the identity on strings without them. -/
theorem removeUnsafe_eq_self (l : Str) (h : ∀ c ∈ l, isUnsafeUrlChar c = false) :
    removeUnsafeUrlChars l = l := by
  unfold removeUnsafeUrlChars
  exact List.filter_eq_self.mpr (fun c hc => by rw [h c hc]; rfl)

/-- An index found by `findIdx?` is within bounds. -/
theorem findIdx?_some_lt (p : Char → Bool) :
    ∀ (xs : Str) (i : ℕ), List.findIdx? p xs = some i → i < xs.length := by
  intro xs
  induction xs with
  | nil =>
    intro i h
    rw [List.findIdx?_nil] at h
    exact absurd h (by simp)
  | cons c cs ih =>
    intro i h
    rw [List.findIdx?_cons] at h
    by_cases hc : p c
    · rw [if_pos hc] at h
      injection h with h
      subst h
      exact Nat.succ_pos _
    · rw [if_neg hc, List.findIdx?_succ] at h
      cases hfi : List.findIdx? p cs with
      | none => rw [hfi] at h; exact absurd h (by simp)
      | some j =>
        rw [hfi] at h
        simp only [Option.map_some'] at h
        injection h with h
        subst h
        exact Nat.succ_lt_succ (ih j hfi)

/-- Appending after a leading non-scheme character leaves scheme detection
unchanged and carries the suffix into the remainder. -/
theorem splitScheme_append (u : Str) (m : Char) (w : Str)
    (hm : isSchemeChar m = false) (hmc : m ≠ ':') :
    splitScheme (u ++ m :: w) = ((splitScheme u).1, (splitScheme u).2 ++ m :: w) := by
  unfold splitScheme
  rw [List.findIdx?_append]
  cases hfu : List.findIdx? (fun c => c = ':') u with
  | some i =>
    simp only [Option.or_some]
    have hlt : i < u.length := findIdx?_some_lt _ u i hfu
    have htake : (u ++ m :: w).take i = u.take i :=
      List.take_append_of_le_length (le_of_lt hlt)
    have hhead : (u ++ m :: w).head? = u.head? := by
      cases u with
      | nil => exact absurd hfu (by simp)
      | cons c cs => rfl
    rw [htake, hhead]
    by_cases hcond : 0 < i ∧ (match u.head? with
        | some c => isAsciiAlpha c
        | none => false) = true ∧ (u.take i).all isSchemeChar
    · rw [if_pos hcond, if_pos hcond]
      rw [List.drop_append_of_le_length hlt]
    · rw [if_neg hcond, if_neg hcond]
  | none =>
    simp only [Option.none_or]
    cases hfw : List.findIdx? (fun c => c = ':') (m :: w) with
    | none => rfl
    | some j =>
      simp only [Option.map_some']
      have hj : 1 ≤ j := by
        rw [List.findIdx?_cons] at hfw
        by_cases hmm : m = ':'
        · exact absurd hmm hmc
        · rw [if_neg (by simpa using hmm), List.findIdx?_succ] at hfw
          cases hfw' : List.findIdx? (fun c => c = ':') w with
          | none => rw [hfw'] at hfw; exact absurd hfw (by simp)
          | some j' =>
            rw [hfw'] at hfw
            simp only [Option.map_some'] at hfw
            injection hfw with hfw
            omega
      have hml : m ∈ (u ++ m :: w).take (j + u.length) := by
        have : (u ++ m :: w).take (u.length + j) = u ++ (m :: w).take j :=
          List.take_append j
        rw [Nat.add_comm j u.length, this]
        refine List.mem_append_right _ ?_
        cases j with
        | zero => omega
        | succ j' => exact List.mem_cons_self m _
      have hallf : ((u ++ m :: w).take (j + u.length)).all isSchemeChar = false := by
        rw [List.all_eq_false]
        exact ⟨m, hml, by rw [hm]; exact Bool.false_ne_true⟩
      rw [if_neg (by intro hcond; rw [hallf] at hcond; exact absurd hcond.2.2 (by decide))]

/-- Unpacking of the plain-character predicate. -/
theorem urlPlainChar_spec {c : Char} (h : urlPlainChar c = true) :
    pyIsSpace c = false ∧ isUnsafeUrlChar c = false ∧ c ≠ '#' ∧ c ≠ '?' ∧
      c ≠ '[' ∧ c ≠ ']' := by
  unfold urlPlainChar at h
  simp only [Bool.and_eq_true, Bool.not_eq_true', decide_eq_false_iff_not] at h
  exact ⟨h.1.1.1.1.1, h.1.1.1.1.2, h.1.1.1.2, h.1.1.2, h.1.2, h.2⟩

/-- The post-scheme remainder is made of characters of the original URL. -/
theorem mem_splitScheme_snd {u : Str} {c : Char} (h : c ∈ (splitScheme u).2) :
    c ∈ u := by
  unfold splitScheme at h
  cases hfu : List.findIdx? (fun c => c = ':') u with
  | some i =>
    rw [hfu] at h
    dsimp only at h
    by_cases hcond : 0 < i ∧ (match u.head? with
        | some c => isAsciiAlpha c
        | none => false) = true ∧ (u.take i).all isSchemeChar
    · rw [if_pos hcond] at h
      exact List.mem_of_mem_drop h
    · rw [if_neg hcond] at h
      exact h
  | none =>
    rw [hfu] at h
    exact h

/-- Appending a non-slash character cannot create a leading `//`. -/
theorem take2_append_ne (x : Str) (m : Char) (w : Str) (hm : m ≠ '/')
    (hx : x.take 2 ≠ ['/', '/']) : (x ++ m :: w).take 2 ≠ ['/', '/'] := by
  cases x with
  | nil =>
    intro hcontra
    have h' : m :: List.take 1 w = ['/', '/'] := hcontra
    exact hm (List.cons.injEq .. |>.mp h').1
  | cons c x' =>
    cases x' with
    | nil =>
      intro hcontra
      have h' : c :: m :: List.take 0 w = ['/', '/'] := hcontra
      exact hm ((List.cons.injEq .. |>.mp (List.cons.injEq .. |>.mp h').2).1)
    | cons d x'' =>
      intro hcontra
      have h' : c :: d :: List.take 0 (x'' ++ m :: w) = ['/', '/'] := hcontra
      refine hx ?_
      have h1 := (List.cons.injEq .. |>.mp h').1
      have h2 := (List.cons.injEq .. |>.mp (List.cons.injEq .. |>.mp h').2).1
      subst h1
      subst h2
      rfl

/-- The first occurrence of a separator appended after separator-free text is
right after that text. -/
theorem findIdx?_append_sep (p : Char → Bool) (xs : Str) (m : Char) (ys : Str)
    (hxs : ∀ c ∈ xs, p c = false) (hm : p m = true) :
    List.findIdx? p (xs ++ m :: ys) = some xs.length := by
  rw [List.findIdx?_append]
  rw [List.findIdx?_eq_none_iff.mpr hxs]
  rw [List.findIdx?_cons, if_pos hm]
  simp

/-- Dropping the prefix plus the separator leaves the suffix. -/
theorem drop_append_succ (xs : Str) (m : Char) (ys : Str) :
    (xs ++ m :: ys).drop (xs.length + 1) = ys := by
  rw [show xs.length + 1 = xs.length + 1 from rfl, List.drop_append 1]
  rfl

/-- Unpacking of the query/fragment suffix predicate. -/
theorem fragPlain_spec {f : Str} (h : fragPlain f = true) :
    ∀ c ∈ f, pyIsSpace c = false ∧ isUnsafeUrlChar c = false := by
  intro c hc
  have h' := List.all_eq_true.mp h c hc
  simp only [Bool.and_eq_true] at h'
  have := urlPlainChar_spec h'.1
  exact ⟨this.1, this.2.1⟩

/-- Appending `#fragment` to a plain URL changes only the fragment component
of `urlsplit`. -/
theorem urlsplit_append_hash (u f : Str) (hu : urlPlain u = true)
    (hf : fragPlain f = true) :
    urlsplit (u ++ '#' :: f) = (urlsplit u).map (fun r => { r with fragment := f }) := by
  have huc : ∀ c ∈ u, urlPlainChar c = true := List.all_eq_true.mp hu
  have hx : ∀ c ∈ (splitScheme u).2, c ≠ '#' ∧ c ≠ '?' ∧ c ≠ '[' ∧ c ≠ ']' := by
    intro c hc
    have h := urlPlainChar_spec (huc c (mem_splitScheme_snd hc))
    exact ⟨h.2.2.1, h.2.2.2.1, h.2.2.2.2.1, h.2.2.2.2.2⟩
  simp only [urlsplit]
  rw [removeUnsafe_eq_self (u ++ '#' :: f) (by
    intro c hc
    rcases List.mem_append.mp hc with hcu | hcf
    · exact (urlPlainChar_spec (huc c hcu)).2.1
    · rcases List.mem_cons.mp hcf with rfl | hcf'
      · rfl
      · exact (fragPlain_spec hf c hcf').2)]
  rw [removeUnsafe_eq_self u (fun c hc => (urlPlainChar_spec (huc c hc)).2.1)]
  rw [splitScheme_append u '#' f (by decide) (by decide)]
  dsimp only
  by_cases h2 : (splitScheme u).2.take 2 = ['/', '/']
  · have hlen : 2 ≤ (splitScheme u).2.length := by
      have hl := List.length_take 2 (splitScheme u).2
      rw [h2] at hl
      simp only [List.length_cons, List.length_nil] at hl
      omega
    rw [List.take_append_of_le_length hlen, if_pos h2, if_pos h2]
    rw [List.drop_append_of_le_length hlen]
    rw [takeWhile_append_sep _ '#' (by decide), dropWhile_append_sep _ '#' (by decide)]
    have hmemx : ∀ c ∈ ((splitScheme u).2.drop 2).takeWhile (fun c => !isNetlocEnd c),
        c ∈ (splitScheme u).2 :=
      fun c hc => List.mem_of_mem_drop ((List.takeWhile_sublist _).mem hc)
    have hbrf : ¬ (('[' ∈ ((splitScheme u).2.drop 2).takeWhile (fun c => !isNetlocEnd c) ∧
        ']' ∉ ((splitScheme u).2.drop 2).takeWhile (fun c => !isNetlocEnd c)) ∨
        (']' ∈ ((splitScheme u).2.drop 2).takeWhile (fun c => !isNetlocEnd c) ∧
        '[' ∉ ((splitScheme u).2.drop 2).takeWhile (fun c => !isNetlocEnd c))) := by
      intro hcontra
      rcases hcontra with ⟨hmem, _⟩ | ⟨hmem, _⟩
      · exact (hx '[' (hmemx '[' hmem)).2.2.1 rfl
      · exact (hx ']' (hmemx ']' hmem)).2.2.2 rfl
    rw [if_neg hbrf, if_neg hbrf]
    have hy : ∀ c ∈ ((splitScheme u).2.drop 2).dropWhile (fun c => !isNetlocEnd c),
        c ∈ (splitScheme u).2 :=
      fun c hc => List.mem_of_mem_drop ((List.dropWhile_sublist _).mem hc)
    rw [findIdx?_append_sep _ _ '#' _
      (fun c hc => decide_eq_false ((hx c (hy c hc)).1)) (by decide)]
    rw [List.findIdx?_eq_none_iff.mpr (fun c hc => decide_eq_false ((hx c (hy c hc)).1))]
    dsimp only
    rw [List.take_left, drop_append_succ]
    rw [List.findIdx?_eq_none_iff.mpr (fun c hc => decide_eq_false ((hx c (hy c hc)).2.1))]
    rfl
  · rw [if_neg (take2_append_ne _ '#' f (by decide) h2), if_neg h2]
    rw [if_neg (by simp), if_neg (by simp)]
    rw [findIdx?_append_sep _ _ '#' _
      (fun c hc => decide_eq_false ((hx c hc).1)) (by decide)]
    rw [List.findIdx?_eq_none_iff.mpr (fun c hc => decide_eq_false ((hx c hc).1))]
    dsimp only
    rw [List.take_left, drop_append_succ]
    rw [List.findIdx?_eq_none_iff.mpr (fun c hc => decide_eq_false ((hx c hc).2.1))]
    rfl

/-- Every character of a query/fragment suffix is plain. -/
theorem fragPlain_char {f : Str} (h : fragPlain f = true) :
    ∀ c ∈ f, urlPlainChar c = true := by
  intro c hc
  have h' := List.all_eq_true.mp h c hc
  simp only [Bool.and_eq_true] at h'
  exact h'.1

/-- Appending `?query` to a plain URL changes only the query component of
`urlsplit`. -/
theorem urlsplit_append_query (u q : Str) (hu : urlPlain u = true)
    (hq : fragPlain q = true) :
    urlsplit (u ++ '?' :: q) = (urlsplit u).map (fun r => { r with query := q }) := by
  have huc : ∀ c ∈ u, urlPlainChar c = true := List.all_eq_true.mp hu
  have hx : ∀ c ∈ (splitScheme u).2, c ≠ '#' ∧ c ≠ '?' ∧ c ≠ '[' ∧ c ≠ ']' := by
    intro c hc
    have h := urlPlainChar_spec (huc c (mem_splitScheme_snd hc))
    exact ⟨h.2.2.1, h.2.2.2.1, h.2.2.2.2.1, h.2.2.2.2.2⟩
  simp only [urlsplit]
  rw [removeUnsafe_eq_self (u ++ '?' :: q) (by
    intro c hc
    rcases List.mem_append.mp hc with hcu | hcq
    · exact (urlPlainChar_spec (huc c hcu)).2.1
    · rcases List.mem_cons.mp hcq with rfl | hcq'
      · rfl
      · exact (urlPlainChar_spec (fragPlain_char hq c hcq')).2.1)]
  rw [removeUnsafe_eq_self u (fun c hc => (urlPlainChar_spec (huc c hc)).2.1)]
  rw [splitScheme_append u '?' q (by decide) (by decide)]
  dsimp only
  by_cases h2 : (splitScheme u).2.take 2 = ['/', '/']
  · have hlen : 2 ≤ (splitScheme u).2.length := by
      have hl := List.length_take 2 (splitScheme u).2
      rw [h2] at hl
      simp only [List.length_cons, List.length_nil] at hl
      omega
    rw [List.take_append_of_le_length hlen, if_pos h2, if_pos h2]
    rw [List.drop_append_of_le_length hlen]
    rw [takeWhile_append_sep _ '?' (by decide), dropWhile_append_sep _ '?' (by decide)]
    have hmemx : ∀ c ∈ ((splitScheme u).2.drop 2).takeWhile (fun c => !isNetlocEnd c),
        c ∈ (splitScheme u).2 :=
      fun c hc => List.mem_of_mem_drop ((List.takeWhile_sublist _).mem hc)
    have hbrf : ¬ (('[' ∈ ((splitScheme u).2.drop 2).takeWhile (fun c => !isNetlocEnd c) ∧
        ']' ∉ ((splitScheme u).2.drop 2).takeWhile (fun c => !isNetlocEnd c)) ∨
        (']' ∈ ((splitScheme u).2.drop 2).takeWhile (fun c => !isNetlocEnd c) ∧
        '[' ∉ ((splitScheme u).2.drop 2).takeWhile (fun c => !isNetlocEnd c))) := by
      intro hcontra
      rcases hcontra with ⟨hmem, _⟩ | ⟨hmem, _⟩
      · exact (hx '[' (hmemx '[' hmem)).2.2.1 rfl
      · exact (hx ']' (hmemx ']' hmem)).2.2.2 rfl
    rw [if_neg hbrf, if_neg hbrf]
    have hy : ∀ c ∈ ((splitScheme u).2.drop 2).dropWhile (fun c => !isNetlocEnd c),
        c ∈ (splitScheme u).2 :=
      fun c hc => List.mem_of_mem_drop ((List.dropWhile_sublist _).mem hc)
    rw [List.findIdx?_eq_none_iff.mpr (show ∀ c ∈ (((splitScheme u).2.drop 2).dropWhile
        (fun c => !isNetlocEnd c)) ++ '?' :: q, (fun x => decide (x = '#')) c = false by
      intro c hc
      rcases List.mem_append.mp hc with hcy | hcq
      · exact decide_eq_false ((hx c (hy c hcy)).1)
      · rcases List.mem_cons.mp hcq with rfl | hcq'
        · exact decide_eq_false (by decide)
        · exact decide_eq_false ((urlPlainChar_spec (fragPlain_char hq c hcq')).2.2.1))]
    rw [List.findIdx?_eq_none_iff.mpr (fun c hc => decide_eq_false ((hx c (hy c hc)).1))]
    dsimp only
    rw [findIdx?_append_sep _ _ '?' _
      (fun c hc => decide_eq_false ((hx c (hy c hc)).2.1)) (by decide)]
    rw [List.findIdx?_eq_none_iff.mpr (fun c hc => decide_eq_false ((hx c (hy c hc)).2.1))]
    dsimp only
    rw [List.take_left, drop_append_succ]
    rfl
  · rw [if_neg (take2_append_ne _ '?' q (by decide) h2), if_neg h2]
    rw [if_neg (by simp), if_neg (by simp)]
    rw [List.findIdx?_eq_none_iff.mpr (show ∀ c ∈ (splitScheme u).2 ++ '?' :: q,
        (fun x => decide (x = '#')) c = false by
      intro c hc
      rcases List.mem_append.mp hc with hcy | hcq
      · exact decide_eq_false ((hx c hcy).1)
      · rcases List.mem_cons.mp hcq with rfl | hcq'
        · exact decide_eq_false (by decide)
        · exact decide_eq_false ((urlPlainChar_spec (fragPlain_char hq c hcq')).2.2.1))]
    rw [List.findIdx?_eq_none_iff.mpr (fun c hc => decide_eq_false ((hx c hc).1))]
    dsimp only
    rw [findIdx?_append_sep _ _ '?' _
      (fun c hc => decide_eq_false ((hx c hc).2.1)) (by decide)]
    rw [List.findIdx?_eq_none_iff.mpr (fun c hc => decide_eq_false ((hx c hc).2.1))]
    dsimp only
    rw [List.take_left, drop_append_succ]
    rfl

/-- `rstrip("/")` absorbs an appended slash. -/
theorem rstripSlash_append (y : Str) : rstripSlash (y ++ ['/']) = rstripSlash y := by
  unfold rstripSlash
  rw [List.reverse_append]
  rfl

/-- Appending a trailing slash to a plain URL does not change
`normalize_url`. -/
theorem normalize_url_slash (u : Str) (hu : urlPlain u = true) :
    normalize_url (some (u ++ ['/'])) = normalize_url (some u) := by
  have huc : ∀ c ∈ u, urlPlainChar c = true := List.all_eq_true.mp hu
  have hx : ∀ c ∈ (splitScheme u).2, c ≠ '#' ∧ c ≠ '?' ∧ c ≠ '[' ∧ c ≠ ']' := by
    intro c hc
    have h := urlPlainChar_spec (huc c (mem_splitScheme_snd hc))
    exact ⟨h.2.2.1, h.2.2.2.1, h.2.2.2.2.1, h.2.2.2.2.2⟩
  by_cases hnil : u = []
  · subst hnil
    rfl
  · show (if u ++ ['/'] = [] then Except.ok [] else
        match urlsplit (pyStrip (u ++ ['/'])) with
        | Except.error e => Except.error e
        | Except.ok parsed => Except.ok (lowerStr parsed.netloc ++ rstripSlash parsed.path)) =
      (if u = [] then Except.ok [] else
        match urlsplit (pyStrip u) with
        | Except.error e => Except.error e
        | Except.ok parsed => Except.ok (lowerStr parsed.netloc ++ rstripSlash parsed.path))
    rw [if_neg (by simp), if_neg hnil]
    rw [pyStrip_eq_self (u ++ ['/']) (by
      intro c hc
      rcases List.mem_append.mp hc with hcu | hcs
      · exact (urlPlainChar_spec (huc c hcu)).1
      · rcases List.mem_cons.mp hcs with rfl | h'
        · rfl
        · exact absurd h' (List.not_mem_nil c))]
    rw [pyStrip_eq_self u (fun c hc => (urlPlainChar_spec (huc c hc)).1)]
    simp only [urlsplit]
    rw [removeUnsafe_eq_self (u ++ ['/']) (by
      intro c hc
      rcases List.mem_append.mp hc with hcu | hcs
      · exact (urlPlainChar_spec (huc c hcu)).2.1
      · rcases List.mem_cons.mp hcs with rfl | h'
        · rfl
        · exact absurd h' (List.not_mem_nil c))]
    rw [removeUnsafe_eq_self u (fun c hc => (urlPlainChar_spec (huc c hc)).2.1)]
    rw [splitScheme_append u '/' [] (by decide) (by decide)]
    dsimp only
    cases hxe : (splitScheme u).2 with
    | nil => rfl
    | cons c x' =>
      rw [hxe] at hx
      cases x' with
      | nil =>
        by_cases hc : c = '/'
        · subst hc
          rfl
        · have hcp := hx c (List.mem_cons_self c [])
          simp only [List.cons_append, List.nil_append]
          rw [if_neg (show ¬ (List.take 2 [c, '/'] = ['/', '/']) from by
            intro hcontra
            have h' : c :: '/' :: ([] : Str) = ['/', '/'] := hcontra
            exact hc (List.cons.injEq .. |>.mp h').1)]
          rw [if_neg (show ¬ (List.take 2 [c] = ['/', '/']) from by
            intro hcontra
            have h' : c :: ([] : Str) = ['/', '/'] := hcontra
            exact absurd (List.cons.injEq .. |>.mp h').2 (by simp))]
          dsimp only
          rw [if_neg (by simp), if_neg (by simp)]
          rw [List.findIdx?_eq_none_iff.mpr (show ∀ e ∈ [c, '/'],
              (fun x => decide (x = '#')) e = false from by
            intro e he
            rcases List.mem_cons.mp he with rfl | he'
            · exact decide_eq_false hcp.1
            · rcases List.mem_cons.mp he' with rfl | he''
              · exact decide_eq_false (by decide)
              · exact absurd he'' (List.not_mem_nil e))]
          rw [List.findIdx?_eq_none_iff.mpr (show ∀ e ∈ [c],
              (fun x => decide (x = '#')) e = false from by
            intro e he
            rcases List.mem_cons.mp he with rfl | he'
            · exact decide_eq_false hcp.1
            · exact absurd he' (List.not_mem_nil e))]
          dsimp only
          rw [List.findIdx?_eq_none_iff.mpr (show ∀ e ∈ [c, '/'],
              (fun x => decide (x = '?')) e = false from by
            intro e he
            rcases List.mem_cons.mp he with rfl | he'
            · exact decide_eq_false hcp.2.1
            · rcases List.mem_cons.mp he' with rfl | he''
              · exact decide_eq_false (by decide)
              · exact absurd he'' (List.not_mem_nil e))]
          rw [List.findIdx?_eq_none_iff.mpr (show ∀ e ∈ [c],
              (fun x => decide (x = '?')) e = false from by
            intro e he
            rcases List.mem_cons.mp he with rfl | he'
            · exact decide_eq_false hcp.2.1
            · exact absurd he' (List.not_mem_nil e))]
          dsimp only
          rw [show ([c, '/'] : Str) = [c] ++ ['/'] from rfl, rstripSlash_append]
      | cons d x'' =>
        simp only [List.cons_append]
        have hlen : 2 ≤ (c :: d :: x'').length := by
          simp only [List.length_cons]
          omega
        have htk : List.take 2 (c :: d :: (x'' ++ ['/'])) = List.take 2 (c :: d :: x'') := by
          have h' : c :: d :: (x'' ++ ['/']) = (c :: d :: x'') ++ ['/'] := by
            simp [List.cons_append]
          rw [h', List.take_append_of_le_length hlen]
        rw [htk]
        by_cases h2 : List.take 2 (c :: d :: x'') = ['/', '/']
        · rw [if_pos h2, if_pos h2]
          have hdr : List.drop 2 (c :: d :: (x'' ++ ['/'])) = x'' ++ ['/'] := rfl
          rw [hdr]
          rw [show List.drop 2 (c :: d :: x'') = x'' from rfl]
          rw [takeWhile_append_sep _ '/' (by decide), dropWhile_append_sep _ '/' (by decide)]
          have hmx : ∀ e ∈ x'', e ≠ '#' ∧ e ≠ '?' := by
            intro e he
            have := hx e (List.mem_cons_of_mem c (List.mem_cons_of_mem d he))
            exact ⟨this.1, this.2.1⟩
          have hy : ∀ e ∈ x''.dropWhile (fun c => !isNetlocEnd c), e ≠ '#' ∧ e ≠ '?' :=
            fun e he => hmx e ((List.dropWhile_sublist _).mem he)
          rw [List.findIdx?_eq_none_iff.mpr (show ∀ e ∈ x''.dropWhile
              (fun c => !isNetlocEnd c) ++ ['/'], (fun x => decide (x = '#')) e = false from by
            intro e he
            rcases List.mem_append.mp he with he' | he''
            · exact decide_eq_false (hy e he').1
            · rcases List.mem_cons.mp he'' with rfl | h0
              · exact decide_eq_false (by decide)
              · exact absurd h0 (List.not_mem_nil e))]
          rw [List.findIdx?_eq_none_iff.mpr
            (fun e he => decide_eq_false (hy e he).1)]
          dsimp only
          rw [List.findIdx?_eq_none_iff.mpr (show ∀ e ∈ x''.dropWhile
              (fun c => !isNetlocEnd c) ++ ['/'], (fun x => decide (x = '?')) e = false from by
            intro e he
            rcases List.mem_append.mp he with he' | he''
            · exact decide_eq_false (hy e he').2
            · rcases List.mem_cons.mp he'' with rfl | h0
              · exact decide_eq_false (by decide)
              · exact absurd h0 (List.not_mem_nil e))]
          rw [List.findIdx?_eq_none_iff.mpr
            (fun e he => decide_eq_false (hy e he).2)]
          dsimp only
          have hbr : ¬ (('[' ∈ List.takeWhile (fun c => !isNetlocEnd c) x'' ∧
              ']' ∉ List.takeWhile (fun c => !isNetlocEnd c) x'') ∨
              (']' ∈ List.takeWhile (fun c => !isNetlocEnd c) x'' ∧
              '[' ∉ List.takeWhile (fun c => !isNetlocEnd c) x'')) := by
            intro hcontra
            rcases hcontra with ⟨hm, _⟩ | ⟨hm, _⟩
            · exact (hx '[' (List.mem_cons_of_mem c (List.mem_cons_of_mem d
                ((List.takeWhile_sublist _).mem hm)))).2.2.1 rfl
            · exact (hx ']' (List.mem_cons_of_mem c (List.mem_cons_of_mem d
                ((List.takeWhile_sublist _).mem hm)))).2.2.2 rfl
          rw [if_neg hbr, if_neg hbr]
          dsimp only
          rw [rstripSlash_append]
        · rw [if_neg h2, if_neg h2]
          dsimp only
          rw [if_neg (by simp), if_neg (by simp)]
          have hmx : ∀ e ∈ c :: d :: x'', e ≠ '#' ∧ e ≠ '?' := by
            intro e he
            have := hx e he
            exact ⟨this.1, this.2.1⟩
          rw [List.findIdx?_eq_none_iff.mpr (show ∀ e ∈ c :: d :: (x'' ++ ['/']),
              (fun x => decide (x = '#')) e = false from by
            intro e he
            rcases List.mem_cons.mp he with rfl | he'
            · exact decide_eq_false (hmx e (List.mem_cons_self e _)).1
            · rcases List.mem_cons.mp he' with rfl | he''
              · exact decide_eq_false (hmx e (List.mem_cons_of_mem c (List.mem_cons_self e _))).1
              · rcases List.mem_append.mp he'' with h3 | h4
                · exact decide_eq_false
                    (hmx e (List.mem_cons_of_mem c (List.mem_cons_of_mem d h3))).1
                · rcases List.mem_cons.mp h4 with rfl | h5
                  · exact decide_eq_false (by decide)
                  · exact absurd h5 (List.not_mem_nil e))]
          rw [List.findIdx?_eq_none_iff.mpr
            (fun e he => decide_eq_false (hmx e he).1)]
          dsimp only
          rw [List.findIdx?_eq_none_iff.mpr (show ∀ e ∈ c :: d :: (x'' ++ ['/']),
              (fun x => decide (x = '?')) e = false from by
            intro e he
            rcases List.mem_cons.mp he with rfl | he'
            · exact decide_eq_false (hmx e (List.mem_cons_self e _)).2
            · rcases List.mem_cons.mp he' with rfl | he''
              · exact decide_eq_false (hmx e (List.mem_cons_of_mem c (List.mem_cons_self e _))).2
              · rcases List.mem_append.mp he'' with h3 | h4
                · exact decide_eq_false
                    (hmx e (List.mem_cons_of_mem c (List.mem_cons_of_mem d h3))).2
                · rcases List.mem_cons.mp h4 with rfl | h5
                  · exact decide_eq_false (by decide)
                  · exact absurd h5 (List.not_mem_nil e))]
          rw [List.findIdx?_eq_none_iff.mpr
            (fun e he => decide_eq_false (hmx e he).2)]
          dsimp only
          rw [show (c :: d :: (x'' ++ ['/']) : Str) = (c :: d :: x'') ++ ['/'] from by
            simp [List.cons_append]]
          rw [rstripSlash_append]

/-- `normalize_url` ignores an appended `#fragment` on a plain URL. -/
theorem normalize_url_fragment (u f : Str) (hu : urlPlain u = true)
    (hf : fragPlain f = true) :
    normalize_url (some (u ++ '#' :: f)) = normalize_url (some u) := by
  have huc : ∀ c ∈ u, urlPlainChar c = true := List.all_eq_true.mp hu
  show (if u ++ '#' :: f = [] then Except.ok [] else
      match urlsplit (pyStrip (u ++ '#' :: f)) with
      | Except.error e => Except.error e
      | Except.ok parsed => Except.ok (lowerStr parsed.netloc ++ rstripSlash parsed.path)) =
    (if u = [] then Except.ok [] else
      match urlsplit (pyStrip u) with
      | Except.error e => Except.error e
      | Except.ok parsed => Except.ok (lowerStr parsed.netloc ++ rstripSlash parsed.path))
  rw [if_neg (by simp)]
  rw [pyStrip_eq_self (u ++ '#' :: f) (by
    intro c hc
    rcases List.mem_append.mp hc with hcu | hcf
    · exact (urlPlainChar_spec (huc c hcu)).1
    · rcases List.mem_cons.mp hcf with rfl | hcf'
      · rfl
      · exact (fragPlain_spec hf c hcf').1)]
  rw [urlsplit_append_hash u f hu hf]
  by_cases hnil : u = []
  · subst hnil
    rw [if_pos rfl]
    rfl
  · rw [if_neg hnil, pyStrip_eq_self u (fun c hc => (urlPlainChar_spec (huc c hc)).1)]
    cases hres : urlsplit u with
    | error e => rfl
    | ok r => rfl

/-- `normalize_url` ignores an appended `?query` on a plain URL. -/
theorem normalize_url_query (u q : Str) (hu : urlPlain u = true)
    (hq : fragPlain q = true) :
    normalize_url (some (u ++ '?' :: q)) = normalize_url (some u) := by
  have huc : ∀ c ∈ u, urlPlainChar c = true := List.all_eq_true.mp hu
  show (if u ++ '?' :: q = [] then Except.ok [] else
      match urlsplit (pyStrip (u ++ '?' :: q)) with
      | Except.error e => Except.error e
      | Except.ok parsed => Except.ok (lowerStr parsed.netloc ++ rstripSlash parsed.path)) =
    (if u = [] then Except.ok [] else
      match urlsplit (pyStrip u) with
      | Except.error e => Except.error e
      | Except.ok parsed => Except.ok (lowerStr parsed.netloc ++ rstripSlash parsed.path))
  rw [if_neg (by simp)]
  rw [pyStrip_eq_self (u ++ '?' :: q) (by
    intro c hc
    rcases List.mem_append.mp hc with hcu | hcq
    · exact (urlPlainChar_spec (huc c hcu)).1
    · rcases List.mem_cons.mp hcq with rfl | hcq'
      · rfl
      · exact (urlPlainChar_spec (fragPlain_char hq c hcq')).1)]
  rw [urlsplit_append_query u q hu hq]
  by_cases hnil : u = []
  · subst hnil
    rw [if_pos rfl]
    rfl
  · rw [if_neg hnil, pyStrip_eq_self u (fun c hc => (urlPlainChar_spec (huc c hc)).1)]
    cases hres : urlsplit u with
    | error e => rfl
    | ok r => rfl

/-- C5: `build_dedup_key` is deterministic, insensitive to positionwise
letter-case and punctuation differences in title/company/location, and
insensitive to a trailing slash, an appended query string and an appended
fragment on the apply-URL — for any digest function, hence for SHA-1. -/
theorem build_dedup_key_insensitive
    (digest : Str → Str) (t1 t2 c1 c2 l1 l2 : Str)
    (hT : List.Forall₂ textEquivChar t1 t2)
    (hC : List.Forall₂ textEquivChar c1 c2)
    (hL : List.Forall₂ textEquivChar l1 l2)
    (u f q : Str) (hu : urlPlain u = true) (hf : fragPlain f = true)
    (hq : fragPlain q = true) :
    build_dedup_key digest t1 (some c1) (some l1) (some u)
      = build_dedup_key digest t1 (some c1) (some l1) (some u) ∧
    build_dedup_key digest t1 (some c1) (some l1) (some u)
      = build_dedup_key digest t2 (some c2) (some l2) (some u) ∧
    build_dedup_key digest t1 (some c1) (some l1) (some (u ++ ['/']))
      = build_dedup_key digest t1 (some c1) (some l1) (some u) ∧
    build_dedup_key digest t1 (some c1) (some l1) (some (u ++ '?' :: q))
      = build_dedup_key digest t1 (some c1) (some l1) (some u) ∧
    build_dedup_key digest t1 (some c1) (some l1) (some (u ++ '#' :: f))
      = build_dedup_key digest t1 (some c1) (some l1) (some u) := by
  refine ⟨rfl, ?_, ?_, ?_, ?_⟩
  · unfold build_dedup_key
    cases hres : normalize_url (some u) with
    | error e => rfl
    | ok nu =>
      dsimp only [Option.getD]
      rw [normalize_text_equiv hT, normalize_text_equiv hC, normalize_text_equiv hL]
  · unfold build_dedup_key
    rw [normalize_url_slash u hu]
  · unfold build_dedup_key
    rw [normalize_url_query u q hu hq]
  · unfold build_dedup_key
    rw [normalize_url_fragment u f hu hf]

/-- Witness for C5 at concrete fields: `C+ Dev` vs `c- dev`, company
`Acme, Inc` vs `ACME. inc`, empty locations, and URL variants of
`https://Example.com/jobs`. -/
theorem build_dedup_key_insensitive_witness :
    urlPlain ("https://Example.com/jobs".toList) = true ∧
    build_dedup_key id ("C+ Dev".toList) (some ("Acme, Inc".toList)) (some [])
        (some ("https://Example.com/jobs".toList))
      = build_dedup_key id ("c- dev".toList) (some ("ACME. inc".toList)) (some [])
        (some ("https://Example.com/jobs".toList)) ∧
    build_dedup_key id ("C+ Dev".toList) (some ("Acme, Inc".toList)) (some [])
        (some ("https://Example.com/jobs".toList ++ '#' :: "sec".toList))
      = build_dedup_key id ("C+ Dev".toList) (some ("Acme, Inc".toList)) (some [])
        (some ("https://Example.com/jobs".toList)) := by
  have hT : List.Forall₂ textEquivChar ("C+ Dev".toList) ("c- dev".toList) := by
    show List.Forall₂ textEquivChar ['C', '+', ' ', 'D', 'e', 'v'] ['c', '-', ' ', 'd', 'e', 'v']
    refine List.Forall₂.cons (Or.inl (by decide)) ?_
    refine List.Forall₂.cons (Or.inr ⟨by decide, by decide⟩) ?_
    refine List.Forall₂.cons (Or.inl (by decide)) ?_
    refine List.Forall₂.cons (Or.inl (by decide)) ?_
    refine List.Forall₂.cons (Or.inl (by decide)) ?_
    exact List.Forall₂.cons (Or.inl (by decide)) List.Forall₂.nil
  have hC : List.Forall₂ textEquivChar ("Acme, Inc".toList) ("ACME. inc".toList) := by
    show List.Forall₂ textEquivChar ['A', 'c', 'm', 'e', ',', ' ', 'I', 'n', 'c']
      ['A', 'C', 'M', 'E', '.', ' ', 'i', 'n', 'c']
    refine List.Forall₂.cons (Or.inl (by decide)) ?_
    refine List.Forall₂.cons (Or.inl (by decide)) ?_
    refine List.Forall₂.cons (Or.inl (by decide)) ?_
    refine List.Forall₂.cons (Or.inl (by decide)) ?_
    refine List.Forall₂.cons (Or.inr ⟨by decide, by decide⟩) ?_
    refine List.Forall₂.cons (Or.inl (by decide)) ?_
    refine List.Forall₂.cons (Or.inl (by decide)) ?_
    refine List.Forall₂.cons (Or.inl (by decide)) ?_
    exact List.Forall₂.cons (Or.inl (by decide)) List.Forall₂.nil
  have h := build_dedup_key_insensitive id ("C+ Dev".toList) ("c- dev".toList)
    ("Acme, Inc".toList) ("ACME. inc".toList) [] []
    hT hC List.Forall₂.nil
    ("https://Example.com/jobs".toList) ("sec".toList) ("page=2".toList)
    (by decide) (by decide) (by decide)
  exact ⟨by decide, h.2.1, h.2.2.2.2⟩

/-- The netloc component `urlsplit` extracts (used to state a sufficient
condition for it to fail). -/
def urlsplitNetloc (u : Str) : Str :=
  let url2 := (splitScheme (removeUnsafeUrlChars u)).2
  (if url2.take 2 = ['/', '/'] then
      ((url2.drop 2).takeWhile (fun c => !isNetlocEnd c),
        (url2.drop 2).dropWhile (fun c => !isNetlocEnd c))
    else ([], url2)).1

/-- A netloc with `[` but no `]`, or `]` but no `[` — CPython's
`Invalid IPv6 URL` condition. -/
def bracketMismatch (n : Str) : Prop :=
  ('[' ∈ n ∧ ']' ∉ n) ∨ (']' ∈ n ∧ '[' ∉ n)

instance instDecidableBracketMismatch (n : Str) : Decidable (bracketMismatch n) := by
  unfold bracketMismatch
  exact inferInstance

/-- A URL made only of plain ASCII characters.  On such input every error path
of the Python ≥ 3.11 `urlsplit` — including the bracketed-host and NFKC-netloc
checks elided from the model — returns without raising, so a model `.ok` here
is also a guarantee about the program. -/
def urlAsciiPlain (u : Str) : Bool :=
  u.all (fun c => urlPlainChar c && decide (c.toNat < 128))

/-- Counterexample for C8 as stated: `normalize_url` is not total — on
`"http://[::1"` (an unterminated IPv6 bracket) `urlsplit` raises
`ValueError("Invalid IPv6 URL")`, which propagates out of `normalize_url`. -/
theorem normalize_url_raises_counterexample :
    normalize_url (some ("http://[::1".toList)) = .error ("Invalid IPv6 URL".toList) ∧
    ¬ ∃ r, normalize_url (some ("http://[::1".toList)) = .ok r := by
  constructor
  · rfl
  · intro ⟨r, hr⟩
    rw [show normalize_url (some ("http://[::1".toList))
      = .error ("Invalid IPv6 URL".toList) from rfl] at hr
    exact absurd hr (by simp)

/-- C8 (amended): `normalize_whitespace` and `normalize_text` are pure total
functions (they are embedded as such); `normalize_url` is not total: it
returns the empty string for missing or empty input, fails — propagating
`urlsplit`'s `ValueError("Invalid IPv6 URL")` — whenever the netloc of the
(stripped, byte-cleaned) URL has mismatched square brackets, and succeeds on
every URL made of plain ASCII characters (on which the further error paths of
the Python ≥ 3.11 `urlsplit`, elided from this model, are vacuous). -/
theorem normalize_url_behaviour :
    normalize_url none = .ok [] ∧
    normalize_url (some []) = .ok [] ∧
    (∀ u : Str, bracketMismatch (urlsplitNetloc (pyStrip u)) →
      normalize_url (some u) = .error ("Invalid IPv6 URL".toList)) ∧
    (∀ u : Str, urlAsciiPlain u = true → ∃ r, normalize_url (some u) = .ok r) := by
  refine ⟨rfl, rfl, ?_, ?_⟩
  · intro u hbr
    by_cases hnil : u = []
    · subst hnil
      exact absurd hbr (by decide)
    · show (if u = [] then Except.ok [] else
        match urlsplit (pyStrip u) with
        | Except.error e => Except.error e
        | Except.ok parsed => Except.ok (lowerStr parsed.netloc ++ rstripSlash parsed.path))
          = .error ("Invalid IPv6 URL".toList)
      rw [if_neg hnil]
      simp only [urlsplit]
      have hbr' := hbr
      simp only [urlsplitNetloc, bracketMismatch] at hbr'
      rw [if_pos hbr']
  · intro u hu
    have hua : ∀ c ∈ u, (urlPlainChar c && decide (c.toNat < 128)) = true :=
      List.all_eq_true.mp hu
    have huc : ∀ c ∈ u, urlPlainChar c = true := by
      intro c hc
      have h := hua c hc
      rw [Bool.and_eq_true] at h
      exact h.1
    have hps : pyStrip u = u :=
      pyStrip_eq_self u (fun c hc => (urlPlainChar_spec (huc c hc)).1)
    have hrm : removeUnsafeUrlChars u = u :=
      removeUnsafe_eq_self u (fun c hc => (urlPlainChar_spec (huc c hc)).2.1)
    have hbr : ¬ bracketMismatch (urlsplitNetloc (pyStrip u)) := by
      intro hcontra
      have hsub : ∀ c ∈ urlsplitNetloc (pyStrip u), c ∈ u := by
        intro c hc
        simp only [urlsplitNetloc] at hc
        rw [hps, hrm] at hc
        by_cases h2 : (splitScheme u).2.take 2 = ['/', '/']
        · rw [if_pos h2] at hc
          exact mem_splitScheme_snd (List.mem_of_mem_drop ((List.takeWhile_sublist _).mem hc))
        · rw [if_neg h2] at hc
          exact absurd hc (List.not_mem_nil c)
      rcases hcontra with ⟨hm, _⟩ | ⟨hm, _⟩
      · exact (urlPlainChar_spec (huc '[' (hsub '[' hm))).2.2.2.2.1 rfl
      · exact (urlPlainChar_spec (huc ']' (hsub ']' hm))).2.2.2.2.2 rfl
    by_cases hnil : u = []
    · subst hnil
      exact ⟨[], rfl⟩
    · show ∃ r, (if u = [] then Except.ok [] else
        match urlsplit (pyStrip u) with
        | Except.error e => Except.error e
        | Except.ok parsed => Except.ok (lowerStr parsed.netloc ++ rstripSlash parsed.path))
          = .ok r
      rw [if_neg hnil]
      simp only [urlsplit]
      have hbr' := hbr
      simp only [urlsplitNetloc, bracketMismatch] at hbr'
      rw [if_neg hbr']
      exact ⟨_, rfl⟩

/-- Witness: `"http://[0:"` has a mismatched bracket in its netloc and
`normalize_url` fails on it; `"https://example.com/jobs/"` is made of plain
ASCII characters and `normalize_url` succeeds on it. -/
theorem normalize_url_behaviour_witness :
    (bracketMismatch (urlsplitNetloc (pyStrip ("http://[0:".toList))) ∧
      normalize_url (some ("http://[0:".toList)) = .error ("Invalid IPv6 URL".toList)) ∧
    (urlAsciiPlain ("https://example.com/jobs/".toList) = true ∧
      ∃ r, normalize_url (some ("https://example.com/jobs/".toList)) = .ok r) :=
  ⟨⟨by decide, normalize_url_behaviour.2.2.1 ("http://[0:".toList) (by decide)⟩,
    ⟨by decide, normalize_url_behaviour.2.2.2 ("https://example.com/jobs/".toList) (by decide)⟩⟩
